import Mathlib

/-!
Shallow embedding of the cross-sheet upsert/migration engine of
`src/sheets.js` (monadians-wallet-collector).

The remote spreadsheet is modelled as an association list from sheet titles
to grids; a grid is the list of its rows (row number `k` in the sheet is the
grid entry at index `k - 1`; row 1 is the header row, data rows start at
row 2).  A cell is a `String`; a cell that was never written is simply
absent from its (ragged) row, and reads of absent cells use `Option` the way
JavaScript reads of absent array entries produce `undefined`.  Cells written
blank are `""`, matching how the values API reports interior empty cells.

Each exported operation of `sheets.js` becomes a pure function from the
spreadsheet state (plus its arguments) to its JS return value paired with
the new spreadsheet state.  Remote-call failures and the retry loop are
modelled separately (`callWithRetryGo`) with the request as a function from
the 0-based attempt number to an `Except`.
-/

set_option maxRecDepth 4000

abbrev Row := List String
abbrev Grid := List Row
abbrev Spreadsheet := List (String × Grid)

/-- Lookup in an association list keyed by strings (first match, like
`Array.prototype.find` on the sheet list / property access on an object). -/
def lookupBy {β : Type} : List (String × β) → String → Option β
  | [], _ => none
  | p :: t, k => if p.1 = k then some p.2 else lookupBy t k

/-- Pointwise update of every entry of an association list whose key is `k`
(when keys are unique this updates the one entry; when `k` is absent it is a
no-op, matching `deleteRowFromSheet`'s early return for a missing sheet). -/
def updateBy {β : Type} : List (String × β) → String → (β → β) → List (String × β)
  | [], _, _ => []
  | p :: t, k, f =>
    (if p.1 = k then (p.1, f p.2) else p) :: updateBy t k f

/-- Whether an association list has an entry for key `k`. -/
def hasKey {β : Type} (l : List (String × β)) (k : String) : Bool :=
  (lookupBy l k).isSome

def findGrid (ss : Spreadsheet) (name : String) : Option Grid :=
  lookupBy ss name

def modifyGrid (ss : Spreadsheet) (name : String) (f : Grid → Grid) : Spreadsheet :=
  updateBy ss name f

/-- Rows below the header, i.e. the values read from range `A2:D`. -/
def dataRowsOf (ss : Spreadsheet) (name : String) : List Row :=
  ((findGrid ss name).getD []).drop 1

/-- The three sheets, in the priority order the source iterates them
(`Object.values(SHEET_NAMES)`). -/
def SHEET_NAMES : List String := ["Monadians", "Monarch", "Monalista"]

def HEADER_ROW : Row := ["Discord Username", "Discord ID", "EVM Wallet", "Role"]

/-- Lower-casing of a string, character by character (the effect of
`String.prototype.toLowerCase` on the labels involved here; equivalent to
`String.toLower`, but structurally recursive so that concrete instances
evaluate). -/
def strToLower (s : String) : String := String.mk (s.data.map Char.toLower)

/-- Embedding of `getSheetNameForRole`: case-insensitive fixed mapping of the
three known role labels to sheet names, `none` otherwise. -/
def getSheetNameForRole (role : String) : Option String :=
  let normalized := strToLower role
  if normalized = "monadian" then some "Monadians"
  else if normalized = "monarch" then some "Monarch"
  else if normalized = "monalista" then some "Monalista"
  else none

/-- Embedding of `deleteRowFromSheet`: a `deleteDimension` request removing
the single sheet row `rowNumber` (1-based, 0-based start index
`rowNumber - 1`); a no-op when the sheet does not exist. -/
def deleteRowFromSheet (ss : Spreadsheet) (name : String) (rowNumber : Nat) :
    Spreadsheet :=
  modifyGrid ss name (fun g => g.take (rowNumber - 1) ++ g.drop rowNumber)

/-- Writing `HEADER_ROW` to range `A1:D1`: cells `A1..D1` of row 1 are
replaced, further cells of row 1 and all other rows are untouched. -/
def writeHeaderRow (g : Grid) : Grid :=
  match g with
  | [] => [HEADER_ROW]
  | r :: t => (HEADER_ROW ++ r.drop 4) :: t

/-- The values read back from range `A1:D1` (`current.data.values?.[0] ?? []`). -/
def headerCellsOf (ss : Spreadsheet) (name : String) : List String :=
  (((findGrid ss name).getD []).headD []).take 4

/-- Embedding of the header check
`firstRow.length === 0 || HEADER_ROW.some((h, i) => firstRow[i] !== h)`. -/
def headerNeedsRewrite (firstRow : List String) : Bool :=
  firstRow.isEmpty || HEADER_ROW.enum.any (fun p => firstRow[p.1]? != some p.2)

/-- The create-missing-sheets pass of `ensureSheetSetup` (one batchUpdate
adding an empty sheet per missing title, computed from the initial state). -/
def addMissingSheets (ss : Spreadsheet) : Spreadsheet :=
  ss ++ (SHEET_NAMES.filter (fun n => (findGrid ss n).isNone)).map
      (fun n => (n, ([] : Grid)))

/-- One iteration of the header-fixing loop of `ensureSheetSetup`. -/
def fixHeader (ss : Spreadsheet) (name : String) : Spreadsheet :=
  if headerNeedsRewrite (headerCellsOf ss name) then
    modifyGrid ss name writeHeaderRow
  else ss

/-- Embedding of `ensureSheetSetup`. -/
def ensureSheetSetup (ss : Spreadsheet) : Spreadsheet :=
  SHEET_NAMES.foldl fixHeader (addMissingSheets ss)

structure UpsertInput where
  discordId : String
  discordUsername : String
  wallet : String
  role : String
deriving Repr, DecidableEq

inductive UpsertAction where
  | inserted
  | updated
  | skipped
deriving Repr, DecidableEq

/-- The identity test of the scan loops: `rows[i][1] === discordId`. -/
def rowMatches (discordId : String) (r : Row) : Bool :=
  r[1]? == some discordId

/-- Index of the first row satisfying `p` (the `for` loop with `break`). -/
def findMatchIdx (p : Row → Bool) : List Row → Option Nat
  | [] => none
  | r :: t => if p r then some 0 else (findMatchIdx p t).map (· + 1)

/-- The existing-location scan of `upsertWallet`: sheets in priority order,
rows in row order, first match wins; `i + 2` is the sheet row number. -/
def findExistingIn (ss : Spreadsheet) (discordId : String) :
    List String → Option (String × Nat)
  | [] => none
  | name :: rest =>
    match findMatchIdx (rowMatches discordId) (dataRowsOf ss name) with
    | some i => some (name, i + 2)
    | none => findExistingIn ss discordId rest

def findExisting (ss : Spreadsheet) (discordId : String) : Option (String × Nat) :=
  findExistingIn ss discordId SHEET_NAMES

/-- The row `[discordUsername, discordId, wallet, role ?? '']` that
`upsertWallet` writes. -/
def newRowFor (inp : UpsertInput) : Row :=
  [inp.discordUsername, inp.discordId, inp.wallet, inp.role]

/-- Append to range `A2:D` with `INSERT_ROWS`: a new row after the table. -/
def appendRow (ss : Spreadsheet) (name : String) (r : Row) : Spreadsheet :=
  modifyGrid ss name (fun g => g ++ [r])

/-- Apply `f` to the grid entry at index `i`, leaving everything else. -/
def mapNth (f : Row → Row) : Nat → Grid → Grid
  | _, [] => []
  | 0, r :: t => f r :: t
  | i + 1, r :: t => r :: mapNth f i t

/-- Writing `vals` to range `A{rowNumber}:D{rowNumber}`: cells `A..D` of that
row are replaced, cells beyond column D are untouched. -/
def updateRowCells (ss : Spreadsheet) (name : String) (rowNumber : Nat)
    (vals : Row) : Spreadsheet :=
  modifyGrid ss name (mapNth (fun old => vals ++ old.drop vals.length) (rowNumber - 1))

/-- Embedding of `upsertWallet` (the `ensureSheetSetup` call that opens the
function is written inline). -/
def upsertWallet (ss : Spreadsheet) (inp : UpsertInput) :
    UpsertAction × Spreadsheet :=
  match getSheetNameForRole inp.role with
  | none => (.skipped, ensureSheetSetup ss)
  | some targetSheet =>
    match findExisting (ensureSheetSetup ss) inp.discordId with
    | some (sheetName, rowNumber) =>
      if sheetName ≠ targetSheet then
        (.inserted,
         appendRow (deleteRowFromSheet (ensureSheetSetup ss) sheetName rowNumber)
           targetSheet (newRowFor inp))
      else
        (.updated,
         updateRowCells (ensureSheetSetup ss) targetSheet rowNumber (newRowFor inp))
    | none => (.inserted, appendRow (ensureSheetSetup ss) targetSheet (newRowFor inp))

structure WalletRecord where
  discordUsername : String
  discordId : String
  wallet : String
  role : String
deriving Repr, DecidableEq

/-- The record `getWallet` builds from a matching row; absent cells are read
back as empty strings (`row[3] ?? ''`). -/
def recordOfRow (r : Row) : WalletRecord :=
  ⟨(r[0]?).getD "", (r[1]?).getD "", (r[2]?).getD "", (r[3]?).getD ""⟩

/-- The scan loop of `getWallet` over a list of sheet names. -/
def getWalletScanIn (ss : Spreadsheet) (discordId : String) :
    List String → Option WalletRecord
  | [] => none
  | name :: rest =>
    match (dataRowsOf ss name).find? (rowMatches discordId) with
    | some row => some (recordOfRow row)
    | none => getWalletScanIn ss discordId rest

/-- Embedding of `getWallet` (result paired with the state after the
`ensureSheetSetup` it performs). -/
def getWallet (ss : Spreadsheet) (discordId : String) :
    Option WalletRecord × Spreadsheet :=
  let ss := ensureSheetSetup ss
  (getWalletScanIn ss discordId SHEET_NAMES, ss)

/-- Embedding of `listWallets`. -/
def listWallets (ss : Spreadsheet) : List WalletRecord × Spreadsheet :=
  let ss := ensureSheetSetup ss
  ((SHEET_NAMES.map (fun name =>
      ((dataRowsOf ss name).filter (fun r => !r.isEmpty)).map recordOfRow)).flatten,
   ss)

structure RowRecord where
  sheetName : String
  rowNumber : Nat
  discordUsername : String
  discordId : String
  wallet : String
  role : String
deriving Repr, DecidableEq

/-- Embedding of `listWalletsWithRow` (`rowNumber = i + 2`). -/
def listWalletsWithRow (ss : Spreadsheet) : List RowRecord × Spreadsheet :=
  let ss := ensureSheetSetup ss
  ((SHEET_NAMES.map (fun name =>
      (((dataRowsOf ss name).enum).filter (fun p => !p.2.isEmpty)).map
        (fun p => ⟨name, p.1 + 2, (p.2[0]?).getD "", (p.2[1]?).getD "",
                   (p.2[2]?).getD "", (p.2[3]?).getD ""⟩))).flatten,
   ss)

structure RoleUpdate where
  sheetName : String
  rowNumber : Nat
  discordId : String
  discordUsername : String
  wallet : String
  newRole : String
deriving Repr, DecidableEq

/-- Writing a value to a single cell at 0-based column `i` of a row: the Sheets
API fills any skipped cells of the row with empty strings. -/
def setCell (r : Row) (i : Nat) (v : String) : Row :=
  (r ++ List.replicate (i + 1 - r.length) "").set i v

/-- Writing `newRole` to range `D{rowNumber}:D{rowNumber}` of a sheet. -/
def updateRoleCell (ss : Spreadsheet) (name : String) (rowNumber : Nat)
    (v : String) : Spreadsheet :=
  modifyGrid ss name (mapNth (fun old => setCell old 3 v) (rowNumber - 1))

/-- The body of the per-update loop of `batchUpdateRoles`, threading the
`(updated, moved)` counters and the spreadsheet state. -/
def reconcileStep (acc : (Nat × Nat) × Spreadsheet) (u : RoleUpdate) :
    (Nat × Nat) × Spreadsheet :=
  match getSheetNameForRole u.newRole with
  | none => ((acc.1.1 + 1, acc.1.2), deleteRowFromSheet acc.2 u.sheetName u.rowNumber)
  | some targetSheet =>
    if u.sheetName ≠ targetSheet then
      ((acc.1.1, acc.1.2 + 1),
       (upsertWallet (deleteRowFromSheet acc.2 u.sheetName u.rowNumber)
          ⟨u.discordId, u.discordUsername, u.wallet, u.newRole⟩).2)
    else
      ((acc.1.1 + 1, acc.1.2), updateRoleCell acc.2 u.sheetName u.rowNumber u.newRole)

/-- Embedding of `batchUpdateRoles`.  An empty update list returns
`{updated: 0, moved: 0}` before `ensureSheetSetup` is reached (a non-array
argument behaves identically and is not modelled separately). -/
def batchUpdateRoles (ss : Spreadsheet) (updates : List RoleUpdate) :
    (Nat × Nat) × Spreadsheet :=
  if updates.isEmpty then ((0, 0), ss)
  else updates.foldl reconcileStep ((0, 0), ensureSheetSetup ss)

/-- An item passed to `batchDeleteRows`.  `rowNumber = none` models a value
that is not an integer (`Number.isInteger` fails); `sheetName = ""` models a
falsy sheet name. -/
structure DeleteItem where
  sheetName : String
  rowNumber : Option Int
deriving Repr, DecidableEq

/-- The validity filter of `batchDeleteRows`:
`if (!sheetName || !Number.isInteger(rowNumber) || rowNumber < 2) continue`. -/
def validItem (it : DeleteItem) : Option (String × Int) :=
  match it.rowNumber with
  | none => none
  | some n => if it.sheetName = "" ∨ n < 2 then none else some (it.sheetName, n)

/-- Adding a row number to the group object `bySheet` (object keys keep
first-insertion order, like `Object.entries`). -/
def addToGroups (groups : List (String × List Int)) (name : String) (n : Int) :
    List (String × List Int) :=
  if hasKey groups name then updateBy groups name (· ++ [n])
  else groups ++ [(name, [n])]

/-- The grouping pass of `batchDeleteRows`. -/
def groupBySheet (items : List DeleteItem) : List (String × List Int) :=
  items.foldl
    (fun groups it =>
      match validItem it with
      | none => groups
      | some (name, n) => addToGroups groups name n)
    []

/-- `Array.from(new Set(rowNumbers))`: keep the first occurrence of each
value, in encounter order. -/
def dedupFirst (l : List Int) : List Int :=
  l.foldl (fun acc x => if acc.contains x then acc else acc ++ [x]) []

/-- Insertion into a descending-sorted list, for `sort((a, b) => b - a)`. -/
def insertDesc (n : Int) : List Int → List Int
  | [] => [n]
  | x :: xs => if x ≤ n then n :: x :: xs else x :: insertDesc n xs

/-- Sorting in descending numeric order (`sort((a, b) => b - a)`). -/
def sortDesc (l : List Int) : List Int := l.foldr insertDesc []

/-- Embedding of `batchDeleteRows`.  `items = none` models a non-array
argument; note `ensureSheetSetup` runs before the array check in the source. -/
def batchDeleteRows (ss : Spreadsheet) (items : Option (List DeleteItem)) :
    Nat × Spreadsheet :=
  let ss := ensureSheetSetup ss
  match items with
  | none => (0, ss)
  | some its =>
    if its.isEmpty then (0, ss)
    else
      (groupBySheet its).foldl
        (fun acc p =>
          (sortDesc (dedupFirst p.2)).foldl
            (fun acc2 n => (acc2.1 + 1, deleteRowFromSheet acc2.2 p.1 n.toNat))
            acc)
        (0, ss)

/-- The sequence of `(sheetName, rowNumber)` row deletions that
`batchDeleteRows` issues, in order: groups in first-encounter order, row
numbers descending within each group. -/
def batchDeleteSequence (items : List DeleteItem) : List (String × Int) :=
  ((groupBySheet items).map
    (fun p => (sortDesc (dedupFirst p.2)).map (fun n => (p.1, n)))).flatten

/-- One `(sheetName, rowNumber)` row-index-referencing operation per
transition of `batchUpdateRoles`, in the order the loop performs them: every
branch of the loop body addresses exactly the row `(u.sheetName,
u.rowNumber)` (a row deletion in the unresolvable and move branches, the
role-column write in the same-sheet branch). -/
def reconcileRowOps (updates : List RoleUpdate) : List (String × Int) :=
  updates.map (fun u => (u.sheetName, (u.rowNumber : Int)))

/-- Boolean test that a list of row numbers is strictly descending. -/
def strictDescB : List Int → Bool
  | [] => true
  | [_] => true
  | a :: b :: t => decide (b < a) && strictDescB (b :: t)

/-- Row-index-affecting operations of an operation sequence are issued in
strictly descending row order within every sheet. -/
def opsDescendingBySheet (ops : List (String × Int)) : Prop :=
  ∀ name, strictDescB ((ops.filter (fun q => q.1 == name)).map Prod.snd) = true

/-- The attempt cap of `callWithRetry`. -/
def maxAttempts : Nat := 5

/-- Embedding of the retry loop of `callWithRetry`.  `requestFn a` is the
outcome of the attempt with 0-based index `a`; `isRateLimited` classifies a
failure (`status === 429 || cause.status === 'RESOURCE_EXHAUSTED'`);
`jitter a` is the value of `Math.floor(Math.random() * 250)` drawn after
attempt `a` (so `jitter a < 250`).  Returns the final outcome together with
the list of sleeps performed (each `delayMs + jitter`). -/
def callWithRetryGo {ε α : Type} (isRateLimited : ε → Bool)
    (requestFn : Nat → Except ε α) (jitter : Nat → Nat)
    (attempt delayMs : Nat) : Except ε α × List Nat :=
  match requestFn attempt with
  | .ok v => (.ok v, [])
  | .error err =>
    if isRateLimited err = false ∨ maxAttempts ≤ attempt + 1 then
      (.error err, [])
    else
      let rest := callWithRetryGo isRateLimited requestFn jitter (attempt + 1)
        (min (delayMs * 2) 15000)
      (rest.1, (delayMs + jitter attempt) :: rest.2)
termination_by maxAttempts - attempt
decreasing_by
  simp only [not_or, not_le] at *
  omega

/-- Embedding of `callWithRetry`: attempts start at 0, `delayMs` starts at
1000. -/
def callWithRetry {ε α : Type} (isRateLimited : ε → Bool)
    (requestFn : Nat → Except ε α) (jitter : Nat → Nat) : Except ε α × List Nat :=
  callWithRetryGo isRateLimited requestFn jitter 0 1000

/-- The backoff base delays: 1000ms doubling per attempt, capped at 15000ms. -/
def backoffDelay : Nat → Nat
  | 0 => 1000
  | i + 1 => min (backoffDelay i * 2) 15000

/-- Number of rows of a sheet whose identity column holds `uid`. -/
def countUserInSheet (ss : Spreadsheet) (name uid : String) : Nat :=
  (dataRowsOf ss name).countP (rowMatches uid)

/-- Number of rows across the three sheets whose identity column holds `uid`. -/
def countUserAll (ss : Spreadsheet) (uid : String) : Nat :=
  (SHEET_NAMES.map (fun n => countUserInSheet ss n uid)).sum

/-- Number of the three sheets in which `uid` appears at all. -/
def partitionsContaining (ss : Spreadsheet) (uid : String) : Nat :=
  (SHEET_NAMES.filter (fun n => countUserInSheet ss n uid != 0)).length

/-- A cell as the callers observe it after a read-back: absent cells read as
the empty string (`row[i] ?? ''`). -/
def effCell (r : Row) (i : Nat) : String :=
  (r[i]?).getD ""

/-- A predicate on a `RoleUpdate`: the loop of `batchUpdateRoles` counts it
as moved (resolvable role whose sheet differs from the current one); every
other update is counted as updated. -/
def isMoveUpdate (u : RoleUpdate) : Bool :=
  match getSheetNameForRole u.newRole with
  | none => false
  | some t => decide (t ≠ u.sheetName)

/-- Example state: one record for `id1` in the Monadians sheet. -/
def ssOneRow : Spreadsheet :=
  [("Monadians", [HEADER_ROW, ["u1", "id1", "w1", "Monadian"]]),
   ("Monarch", [HEADER_ROW]),
   ("Monalista", [HEADER_ROW])]

/-- Example state: two rows for the same `id1`, both inside the Monadians
sheet, so the userId appears in only one partition but on two rows. -/
def ssDupRows : Spreadsheet :=
  [("Monadians", [HEADER_ROW, ["u1", "id1", "w1", "Monadian"],
                  ["u1b", "id1", "w2", "Monadian"]]),
   ("Monarch", [HEADER_ROW]),
   ("Monalista", [HEADER_ROW])]

/-- Example state: three records on rows 2, 3 and 4 of the Monadians sheet. -/
def ssThreeRows : Spreadsheet :=
  [("Monadians", [HEADER_ROW, ["u2", "id2", "w2", "Monadian"],
                  ["u3", "id3", "w3", "Monadian"],
                  ["u4", "id4", "w4", "Monadian"]]),
   ("Monarch", [HEADER_ROW]),
   ("Monalista", [HEADER_ROW])]

/-- Example state: the same `id9` stored (in violation of the intended
invariant) in both the Monarch and the Monalista sheets. -/
def ssDupAcross : Spreadsheet :=
  [("Monadians", [HEADER_ROW]),
   ("Monarch", [HEADER_ROW, ["a", "id9", "w1", "Monarch"]]),
   ("Monalista", [HEADER_ROW, ["b", "id9", "w2", "Monalista"]])]

/-- Example state: five records on rows 2 through 6 of the Monadians sheet. -/
def ssFiveRows : Spreadsheet :=
  [("Monadians", [HEADER_ROW, ["u2", "id2", "w2", "Monadian"],
                  ["u3", "id3", "w3", "Monadian"],
                  ["u4", "id4", "w4", "Monadian"],
                  ["u5", "id5", "w5", "Monadian"],
                  ["u6", "id6", "w6", "Monadian"]]),
   ("Monarch", [HEADER_ROW]),
   ("Monalista", [HEADER_ROW])]

/-! ### Association-list lemmas -/

theorem lookupBy_updateBy_self {β : Type} (l : List (String × β)) (k : String)
    (f : β → β) : lookupBy (updateBy l k f) k = (lookupBy l k).map f := by
  induction l with
  | nil => rfl
  | cons p t ih =>
    by_cases h : p.1 = k <;> simp [lookupBy, updateBy, h, ih]

theorem lookupBy_updateBy_ne {β : Type} (l : List (String × β)) (k k' : String)
    (f : β → β) (h : k' ≠ k) :
    lookupBy (updateBy l k f) k' = lookupBy l k' := by
  induction l with
  | nil => rfl
  | cons p t ih =>
    by_cases hp : p.1 = k
    · have hkk : k ≠ k' := fun e => h e.symm
      simp [lookupBy, updateBy, hp, hkk, ih]
    · by_cases hp' : p.1 = k' <;> simp [lookupBy, updateBy, hp, hp', h, ih]

theorem lookupBy_append {β : Type} (l m : List (String × β)) (k : String) :
    lookupBy (l ++ m) k = (lookupBy l k).or (lookupBy m k) := by
  induction l with
  | nil => simp [lookupBy]
  | cons p t ih =>
    by_cases h : p.1 = k <;> simp [lookupBy, h, ih]

theorem lookupBy_pairs {β : Type} (names : List String) (b : β) (k : String) :
    lookupBy (names.map (fun n => (n, b))) k =
      if k ∈ names then some b else none := by
  induction names with
  | nil => simp [lookupBy]
  | cons n t ih =>
    by_cases h : n = k
    · simp [lookupBy, h]
    · simp [lookupBy, h, ih, Ne.symm h]

theorem lookupBy_isSome_updateBy {β : Type} (l : List (String × β))
    (k k' : String) (f : β → β) :
    (lookupBy (updateBy l k f) k').isSome = (lookupBy l k').isSome := by
  by_cases h : k' = k
  · subst h; rw [lookupBy_updateBy_self]; cases lookupBy l k' <;> rfl
  · rw [lookupBy_updateBy_ne _ _ _ _ h]

/-! ### Grid-operation lemmas -/

theorem findGrid_modifyGrid_self (ss : Spreadsheet) (name : String)
    (f : Grid → Grid) :
    findGrid (modifyGrid ss name f) name = (findGrid ss name).map f :=
  lookupBy_updateBy_self ss name f

theorem findGrid_modifyGrid_ne (ss : Spreadsheet) (name n : String)
    (f : Grid → Grid) (h : n ≠ name) :
    findGrid (modifyGrid ss name f) n = findGrid ss n :=
  lookupBy_updateBy_ne ss name n f h

theorem dataRowsOf_modifyGrid_ne (ss : Spreadsheet) (name n : String)
    (f : Grid → Grid) (h : n ≠ name) :
    dataRowsOf (modifyGrid ss name f) n = dataRowsOf ss n := by
  simp [dataRowsOf, findGrid_modifyGrid_ne ss name n f h]

theorem dataRowsOf_modifyGrid_self (ss : Spreadsheet) (name : String)
    (f : Grid → Grid) (g : Grid) (h : findGrid ss name = some g) :
    dataRowsOf (modifyGrid ss name f) name = (f g).drop 1 := by
  simp [dataRowsOf, findGrid_modifyGrid_self, h]

theorem dataRowsOf_appendRow (ss : Spreadsheet) (name : String) (r : Row)
    (g : Grid) (h : findGrid ss name = some g) (hne : g ≠ []) :
    dataRowsOf (appendRow ss name r) name = dataRowsOf ss name ++ [r] := by
  rw [appendRow, dataRowsOf_modifyGrid_self ss name _ g h]
  have hlen : 1 ≤ g.length := by
    cases g with
    | nil => exact absurd rfl hne
    | cons a t => simp
  simp [dataRowsOf, h, List.drop_append_of_le_length hlen]

theorem dataRowsOf_appendRow_ne (ss : Spreadsheet) (name n : String) (r : Row)
    (h : n ≠ name) :
    dataRowsOf (appendRow ss name r) n = dataRowsOf ss n :=
  dataRowsOf_modifyGrid_ne ss name n _ h

theorem dataRowsOf_deleteRow_ne (ss : Spreadsheet) (name n : String)
    (rowNumber : Nat) (h : n ≠ name) :
    dataRowsOf (deleteRowFromSheet ss name rowNumber) n = dataRowsOf ss n :=
  dataRowsOf_modifyGrid_ne ss name n _ h

theorem take_drop_row_shift (x : Row) (t : List Row) (r : Nat) (h2 : 2 ≤ r) :
    ((x :: t).take (r - 1) ++ (x :: t).drop r).drop 1 =
      t.take (r - 2) ++ t.drop (r - 1) := by
  obtain ⟨m, rfl⟩ : ∃ m, r = m + 2 := ⟨r - 2, by omega⟩
  have e1 : m + 2 - 1 = m + 1 := by omega
  have e2 : m + 2 - 2 = m := by omega
  have e3 : List.drop (m + 2) (x :: t) = List.drop (m + 1) t := by
    rw [show m + 2 = (m + 1) + 1 from rfl, List.drop_succ_cons]
  rw [e1, e2, e3, List.take_succ_cons]
  simp

theorem dataRowsOf_deleteRow_self (ss : Spreadsheet) (name : String)
    (rowNumber : Nat) (g : Grid) (h : findGrid ss name = some g)
    (h2 : 2 ≤ rowNumber) :
    dataRowsOf (deleteRowFromSheet ss name rowNumber) name =
      (dataRowsOf ss name).take (rowNumber - 2) ++
        (dataRowsOf ss name).drop (rowNumber - 1) := by
  rw [deleteRowFromSheet, dataRowsOf_modifyGrid_self ss name _ g h]
  simp only [dataRowsOf, h, Option.getD_some]
  cases g with
  | nil => simp
  | cons x t => exact take_drop_row_shift x t rowNumber h2

/-! ### Header and `ensureSheetSetup` lemmas -/

theorem headerNeedsRewrite_header_row : headerNeedsRewrite HEADER_ROW = false := by
  decide

theorem headerCellsOf_length_le (ss : Spreadsheet) (n : String) :
    (headerCellsOf ss n).length ≤ 4 := by
  simp [headerCellsOf]

theorem headerCellsOf_eq_of_not_rewrite (ss : Spreadsheet) (n : String)
    (h : headerNeedsRewrite (headerCellsOf ss n) = false) :
    headerCellsOf ss n = HEADER_ROW := by
  have hle := headerCellsOf_length_le ss n
  rw [headerNeedsRewrite, Bool.or_eq_false_iff] at h
  obtain ⟨hem, hany⟩ := h
  rw [List.any_eq_false] at hany
  have h0 := hany (0, "Discord Username") (by decide)
  have h1 := hany (1, "Discord ID") (by decide)
  have h2 := hany (2, "EVM Wallet") (by decide)
  have h3 := hany (3, "Role") (by decide)
  simp only [bne_iff_ne, ne_eq, not_not] at h0 h1 h2 h3
  have hlen : (headerCellsOf ss n).length = 4 := by
    by_contra hne
    rw [List.getElem?_eq_none (by omega)] at h3
    exact absurd h3 (by simp)
  apply List.ext_getElem?
  intro i
  match i with
  | 0 => simpa using h0
  | 1 => simpa using h1
  | 2 => simpa using h2
  | 3 => simpa using h3
  | (m + 4) =>
    rw [List.getElem?_eq_none (by omega), List.getElem?_eq_none (by simp [HEADER_ROW])]

theorem headerCellsOf_writeHeaderRow (ss : Spreadsheet) (name : String)
    (g : Grid) (h : findGrid ss name = some g) :
    headerCellsOf (modifyGrid ss name writeHeaderRow) name = HEADER_ROW := by
  have := findGrid_modifyGrid_self ss name writeHeaderRow
  rw [h] at this
  rw [headerCellsOf, this]
  cases g with
  | nil => rfl
  | cons r t =>
    simp [writeHeaderRow, List.take_append_of_le_length, HEADER_ROW]

theorem headerCellsOf_fixHeader_self (ss : Spreadsheet) (name : String)
    (g : Grid) (h : findGrid ss name = some g) :
    headerCellsOf (fixHeader ss name) name = HEADER_ROW := by
  rw [fixHeader]
  by_cases hc : headerNeedsRewrite (headerCellsOf ss name) = true
  · rw [if_pos hc]
    exact headerCellsOf_writeHeaderRow ss name g h
  · rw [if_neg hc]
    exact headerCellsOf_eq_of_not_rewrite ss name (by simpa using hc)

theorem findGrid_fixHeader_ne (ss : Spreadsheet) (name n : String) (h : n ≠ name) :
    findGrid (fixHeader ss name) n = findGrid ss n := by
  rw [fixHeader]
  split
  · exact findGrid_modifyGrid_ne ss name n _ h
  · rfl

theorem headerCellsOf_fixHeader_ne (ss : Spreadsheet) (name n : String)
    (h : n ≠ name) :
    headerCellsOf (fixHeader ss name) n = headerCellsOf ss n := by
  rw [headerCellsOf, headerCellsOf, findGrid_fixHeader_ne ss name n h]

theorem findGrid_fixHeader_isSome (ss : Spreadsheet) (name n : String) :
    (findGrid (fixHeader ss name) n).isSome = (findGrid ss n).isSome := by
  rw [fixHeader]
  split
  · exact lookupBy_isSome_updateBy ss name n _
  · rfl

theorem dataRowsOf_fixHeader (ss : Spreadsheet) (name n : String) :
    dataRowsOf (fixHeader ss name) n = dataRowsOf ss n := by
  by_cases h : n = name
  · subst h
    rw [fixHeader]
    split
    · rw [dataRowsOf, findGrid_modifyGrid_self]
      cases hg : findGrid ss n with
      | none => simp [dataRowsOf, hg]
      | some g =>
        cases g with
        | nil => simp [dataRowsOf, hg, writeHeaderRow]
        | cons r t => simp [dataRowsOf, hg, writeHeaderRow]
    · rfl
  · rw [fixHeader]
    split
    · exact dataRowsOf_modifyGrid_ne ss name n _ h
    · rfl

theorem grid_present_of_headerCells (ss : Spreadsheet) (n : String)
    (h : headerCellsOf ss n = HEADER_ROW) : (findGrid ss n).isSome := by
  cases hg : findGrid ss n with
  | none => rw [headerCellsOf, hg] at h; simp [HEADER_ROW] at h
  | some g => rfl

theorem grid_ne_nil_of_headerCells (ss : Spreadsheet) (n : String) (g : Grid)
    (hg : findGrid ss n = some g) (h : headerCellsOf ss n = HEADER_ROW) :
    g ≠ [] := by
  intro he
  rw [headerCellsOf, hg, he] at h
  simp [HEADER_ROW] at h

theorem findGrid_addMissing_of_some (ss : Spreadsheet) (n : String) (g : Grid)
    (h : findGrid ss n = some g) :
    findGrid (addMissingSheets ss) n = some g := by
  rw [addMissingSheets]
  show lookupBy (ss ++ _) n = some g
  rw [lookupBy_append, show lookupBy ss n = some g from h]
  rfl

theorem findGrid_addMissing_of_none (ss : Spreadsheet) (n : String)
    (h : findGrid ss n = none) :
    findGrid (addMissingSheets ss) n =
      if n ∈ SHEET_NAMES then some [] else none := by
  rw [addMissingSheets]
  show lookupBy (ss ++ _) n = _
  rw [lookupBy_append, show lookupBy ss n = none from h]
  rw [Option.none_or, lookupBy_pairs]
  by_cases hm : n ∈ SHEET_NAMES <;> simp [List.mem_filter, h, hm]

theorem findGrid_addMissing_isSome (ss : Spreadsheet) (n : String)
    (hm : n ∈ SHEET_NAMES) : (findGrid (addMissingSheets ss) n).isSome := by
  cases h : findGrid ss n with
  | some g => rw [findGrid_addMissing_of_some ss n g h]; rfl
  | none => rw [findGrid_addMissing_of_none ss n h, if_pos hm]; rfl

theorem dataRowsOf_addMissing (ss : Spreadsheet) (n : String) :
    dataRowsOf (addMissingSheets ss) n = dataRowsOf ss n := by
  cases h : findGrid ss n with
  | some g => rw [dataRowsOf, findGrid_addMissing_of_some ss n g h, dataRowsOf, h]
  | none =>
    rw [dataRowsOf, findGrid_addMissing_of_none ss n h, dataRowsOf, h]
    by_cases hm : n ∈ SHEET_NAMES <;> simp [hm]

theorem dataRowsOf_ensure (ss : Spreadsheet) (n : String) :
    dataRowsOf (ensureSheetSetup ss) n = dataRowsOf ss n := by
  rw [ensureSheetSetup]
  simp only [SHEET_NAMES, List.foldl_cons, List.foldl_nil]
  rw [dataRowsOf_fixHeader, dataRowsOf_fixHeader, dataRowsOf_fixHeader,
    dataRowsOf_addMissing]

theorem fixHeader_eq_self_of_good (ss : Spreadsheet) (name : String)
    (h : headerNeedsRewrite (headerCellsOf ss name) = false) :
    fixHeader ss name = ss := by
  rw [fixHeader, if_neg]
  simp [h]

theorem headerCellsOf_findGrid_congr (ss ss2 : Spreadsheet) (n : String)
    (h : findGrid ss2 n = findGrid ss n) :
    headerCellsOf ss2 n = headerCellsOf ss n := by
  rw [headerCellsOf, headerCellsOf, h]

theorem findGrid_foldl_fixHeader (names : List String) (ss2 : Spreadsheet)
    (n : String) (h : headerCellsOf ss2 n = HEADER_ROW) :
    findGrid (names.foldl fixHeader ss2) n = findGrid ss2 n := by
  induction names generalizing ss2 with
  | nil => rfl
  | cons name rest ih =>
    simp only [List.foldl_cons]
    by_cases he : n = name
    · subst he
      have hself : fixHeader ss2 n = ss2 :=
        fixHeader_eq_self_of_good ss2 n
          (by rw [h]; exact headerNeedsRewrite_header_row)
      rw [hself]
      exact ih ss2 h
    · rw [ih (fixHeader ss2 name)
        (by rw [headerCellsOf_fixHeader_ne ss2 name n he]; exact h)]
      exact findGrid_fixHeader_ne ss2 name n he

theorem ensure_headerCells (ss : Spreadsheet) (n : String) (hn : n ∈ SHEET_NAMES) :
    headerCellsOf (ensureSheetSetup ss) n = HEADER_ROW := by
  have hM : ∀ m ∈ SHEET_NAMES, (findGrid (addMissingSheets ss) m).isSome :=
    fun m hm => findGrid_addMissing_isSome ss m hm
  rw [ensureSheetSetup]
  simp only [SHEET_NAMES, List.mem_cons, List.not_mem_nil, or_false] at hn
  simp only [SHEET_NAMES, List.foldl_cons, List.foldl_nil]
  rcases hn with h1 | h2 | h3
  · subst h1
    obtain ⟨g, hg⟩ := Option.isSome_iff_exists.mp
      (hM "Monadians" (by simp [SHEET_NAMES]))
    have s1 := headerCellsOf_fixHeader_self (addMissingSheets ss) "Monadians" g hg
    rw [headerCellsOf_fixHeader_ne _ "Monalista" "Monadians" (by decide),
      headerCellsOf_fixHeader_ne _ "Monarch" "Monadians" (by decide)]
    exact s1
  · subst h2
    have hsm : (findGrid (fixHeader (addMissingSheets ss) "Monadians")
        "Monarch").isSome := by
      rw [findGrid_fixHeader_isSome]
      exact hM "Monarch" (by simp [SHEET_NAMES])
    obtain ⟨g, hg⟩ := Option.isSome_iff_exists.mp hsm
    have s2 := headerCellsOf_fixHeader_self _ "Monarch" g hg
    rw [headerCellsOf_fixHeader_ne _ "Monalista" "Monarch" (by decide)]
    exact s2
  · subst h3
    have hsm : (findGrid (fixHeader (fixHeader (addMissingSheets ss) "Monadians")
        "Monarch") "Monalista").isSome := by
      rw [findGrid_fixHeader_isSome, findGrid_fixHeader_isSome]
      exact hM "Monalista" (by simp [SHEET_NAMES])
    obtain ⟨g, hg⟩ := Option.isSome_iff_exists.mp hsm
    exact headerCellsOf_fixHeader_self _ "Monalista" g hg

theorem findGrid_ensure_isSome (ss : Spreadsheet) (n : String)
    (hn : n ∈ SHEET_NAMES) : (findGrid (ensureSheetSetup ss) n).isSome :=
  grid_present_of_headerCells _ n (ensure_headerCells ss n hn)

theorem findGrid_ensure_of_good (ss : Spreadsheet) (n : String)
    (h : headerNeedsRewrite (headerCellsOf ss n) = false) :
    findGrid (ensureSheetSetup ss) n = findGrid ss n := by
  have hcells : headerCellsOf ss n = HEADER_ROW :=
    headerCellsOf_eq_of_not_rewrite ss n h
  obtain ⟨g, hg⟩ := Option.isSome_iff_exists.mp
    (grid_present_of_headerCells ss n hcells)
  have hadd : findGrid (addMissingSheets ss) n = some g :=
    findGrid_addMissing_of_some ss n g hg
  rw [ensureSheetSetup,
    findGrid_foldl_fixHeader SHEET_NAMES (addMissingSheets ss) n
      (by rw [headerCellsOf_findGrid_congr ss (addMissingSheets ss) n
                (hadd.trans hg.symm)]
          exact hcells),
    hadd, hg]

theorem foldl_fixHeader_eq_self (names : List String) (ss2 : Spreadsheet)
    (h : ∀ name ∈ names, headerNeedsRewrite (headerCellsOf ss2 name) = false) :
    names.foldl fixHeader ss2 = ss2 := by
  induction names with
  | nil => rfl
  | cons name rest ih =>
    simp only [List.foldl_cons]
    rw [fixHeader_eq_self_of_good ss2 name (h name (by simp))]
    exact ih fun m hm => h m (by simp [hm])

theorem ensure_idem (ss : Spreadsheet) :
    ensureSheetSetup (ensureSheetSetup ss) = ensureSheetSetup ss := by
  have hgood : ∀ name ∈ SHEET_NAMES,
      headerNeedsRewrite (headerCellsOf (ensureSheetSetup ss) name) = false := by
    intro name hm
    rw [ensure_headerCells ss name hm]
    exact headerNeedsRewrite_header_row
  have hadd : addMissingSheets (ensureSheetSetup ss) = ensureSheetSetup ss := by
    rw [addMissingSheets]
    have : SHEET_NAMES.filter
        (fun n => (findGrid (ensureSheetSetup ss) n).isNone) = [] := by
      rw [List.filter_eq_nil_iff]
      intro n hn
      have := findGrid_ensure_isSome ss n hn
      simp [Option.isNone_iff_eq_none]
      intro hc
      rw [hc] at this
      exact absurd this (by simp)
    rw [this]
    simp
  rw [ensureSheetSetup, hadd, foldl_fixHeader_eq_self SHEET_NAMES _ hgood]

/-! ### Scan and counting lemmas -/

theorem findMatchIdx_eq_none_iff (p : Row → Bool) (l : List Row) :
    findMatchIdx p l = none ↔ ∀ r ∈ l, p r = false := by
  induction l with
  | nil => simp [findMatchIdx]
  | cons r t ih =>
    by_cases h : p r = true
    · simp [findMatchIdx, h]
    · simp only [Bool.not_eq_true] at h
      simp [findMatchIdx, h, ih]

theorem findMatchIdx_eq_some (p : Row → Bool) (l : List Row) (i : Nat)
    (h : findMatchIdx p l = some i) :
    ∃ r, l[i]? = some r ∧ p r = true ∧
      ∀ j < i, ∀ r2, l[j]? = some r2 → p r2 = false := by
  induction l generalizing i with
  | nil => simp [findMatchIdx] at h
  | cons r t ih =>
    by_cases hp : p r = true
    · simp [findMatchIdx, hp] at h
      subst h
      exact ⟨r, by simp, hp, fun j hj => by omega⟩
    · simp only [Bool.not_eq_true] at hp
      simp [findMatchIdx, hp] at h
      obtain ⟨i2, hi2, rfl⟩ := h
      obtain ⟨row, hrow, hm, hbefore⟩ := ih i2 hi2
      refine ⟨row, by simpa using hrow, hm, ?_⟩
      intro j hj r2 hr2
      cases j with
      | zero =>
        have : r2 = r := by simpa using hr2.symm
        rw [this]
        exact hp
      | succ j2 =>
        exact hbefore j2 (by omega) r2 (by simpa using hr2)

theorem countP_eq_zero_iff_no_match (p : Row → Bool) (l : List Row) :
    l.countP p = 0 ↔ ∀ r ∈ l, p r = false := by
  rw [List.countP_eq_zero]
  constructor
  · intro h r hr
    simpa using h r hr
  · intro h r hr
    simp [h r hr]

theorem countP_eraseAt (l : List Row) (p : Row → Bool) (i : Nat) (x : Row)
    (hx : l[i]? = some x) :
    (l.take i ++ l.drop (i + 1)).countP p + (if p x then 1 else 0) =
      l.countP p := by
  have hi : i < l.length := by
    by_contra hc
    rw [List.getElem?_eq_none (by omega)] at hx
    exact absurd hx (by simp)
  have hxe : l[i] = x := by
    have := List.getElem?_eq_getElem hi
    rw [this] at hx
    exact Option.some_injective _ hx
  conv_rhs => rw [← List.take_append_drop i l]
  rw [List.countP_append, List.countP_append,
    List.drop_eq_getElem_cons hi, List.countP_cons, hxe]
  by_cases hpx : p x = true <;> simp [hpx] <;> omega

theorem mapNth_getElem (f : Row → Row) (i j : Nat) (l : Grid) :
    (mapNth f i l)[j]? = if j = i then (l[j]?).map f else l[j]? := by
  induction l generalizing i j with
  | nil => simp [mapNth]
  | cons r t ih =>
    cases i with
    | zero =>
      cases j with
      | zero => simp [mapNth]
      | succ j2 => simp [mapNth]
    | succ i2 =>
      cases j with
      | zero => simp [mapNth]
      | succ j2 => simpa [mapNth, Nat.succ_inj] using ih i2 j2

theorem mapNth_eq_decomp (f : Row → Row) (i : Nat) (l : Grid) (x : Row)
    (hx : l[i]? = some x) :
    mapNth f i l = l.take i ++ f x :: l.drop (i + 1) := by
  induction l generalizing i with
  | nil => simp at hx
  | cons r t ih =>
    cases i with
    | zero =>
      simp only [List.getElem?_cons_zero] at hx
      obtain rfl := Option.some_injective _ hx
      simp [mapNth]
    | succ i2 =>
      simp only [List.getElem?_cons_succ] at hx
      simp [mapNth, ih i2 hx]

theorem mapNth_drop_one (f : Row → Row) (r : Nat) (h2 : 2 ≤ r) (g : Grid) :
    (mapNth f (r - 1) g).drop 1 = mapNth f (r - 2) (g.drop 1) := by
  obtain ⟨m, rfl⟩ : ∃ m, r = m + 2 := ⟨r - 2, by omega⟩
  have e1 : m + 2 - 1 = m + 1 := by omega
  have e2 : m + 2 - 2 = m := by omega
  rw [e1, e2]
  cases g with
  | nil => simp [mapNth]
  | cons x t => simp [mapNth]

theorem countUserInSheet_ne_zero_of_match (ss : Spreadsheet) (n uid : String)
    (i : Nat) (row : Row) (hr : (dataRowsOf ss n)[i]? = some row)
    (hm : rowMatches uid row = true) : countUserInSheet ss n uid ≠ 0 := by
  rw [countUserInSheet, Ne, countP_eq_zero_iff_no_match]
  intro hall
  have hmem : row ∈ dataRowsOf ss n := by
    have hi : i < (dataRowsOf ss n).length := by
      by_contra hc
      rw [List.getElem?_eq_none (by omega)] at hr
      exact absurd hr (by simp)
    have := List.getElem?_eq_getElem hi
    rw [this] at hr
    obtain rfl := Option.some_injective _ hr
    exact List.getElem_mem hi
  rw [hall row hmem] at hm
  exact absurd hm (by simp)

theorem findExistingIn_eq_none_iff (ss : Spreadsheet) (uid : String)
    (names : List String) :
    findExistingIn ss uid names = none ↔
      ∀ n ∈ names, countUserInSheet ss n uid = 0 := by
  induction names with
  | nil => simp [findExistingIn]
  | cons name rest ih =>
    cases hf : findMatchIdx (rowMatches uid) (dataRowsOf ss name) with
    | some i =>
      simp only [findExistingIn, hf]
      obtain ⟨row, hrow, hm, _⟩ := findMatchIdx_eq_some _ _ i hf
      simp only [List.mem_cons]
      constructor
      · intro hc
        exact absurd hc (by simp)
      · intro hall
        exact absurd (hall name (Or.inl rfl))
          (countUserInSheet_ne_zero_of_match ss name uid i row hrow hm)
    | none =>
      have hz : countUserInSheet ss name uid = 0 := by
        rw [countUserInSheet, countP_eq_zero_iff_no_match]
        exact (findMatchIdx_eq_none_iff _ _).mp hf
      simp only [findExistingIn, hf, ih, List.mem_cons]
      constructor
      · intro h n hn
        rcases hn with rfl | hn
        · exact hz
        · exact h n hn
      · intro h n hn
        exact h n (Or.inr hn)

theorem findExistingIn_eq_some (ss : Spreadsheet) (uid : String)
    (names : List String) (n : String) (r : Nat)
    (h : findExistingIn ss uid names = some (n, r)) :
    ∃ pre post, names = pre ++ n :: post ∧
      (∀ m ∈ pre, countUserInSheet ss m uid = 0) ∧ 2 ≤ r ∧
      (∃ row, (dataRowsOf ss n)[r - 2]? = some row ∧ rowMatches uid row = true ∧
        ∀ j < r - 2, ∀ row2, (dataRowsOf ss n)[j]? = some row2 →
          rowMatches uid row2 = false) := by
  induction names with
  | nil => simp [findExistingIn] at h
  | cons name rest ih =>
    cases hf : findMatchIdx (rowMatches uid) (dataRowsOf ss name) with
    | some i =>
      simp only [findExistingIn, hf, Option.some_inj, Prod.mk.injEq] at h
      obtain ⟨rfl, rfl⟩ := h
      obtain ⟨row, hrow, hm, hbefore⟩ := findMatchIdx_eq_some _ _ i hf
      have e : i + 2 - 2 = i := by omega
      exact ⟨[], rest, by simp, by simp, by omega,
        row, by rw [e]; exact hrow, hm, by rw [e]; exact hbefore⟩
    | none =>
      simp only [findExistingIn, hf] at h
      obtain ⟨pre, post, hsplit, hpre, h2, hrest⟩ := ih h
      have hz : countUserInSheet ss name uid = 0 := by
        rw [countUserInSheet, countP_eq_zero_iff_no_match]
        exact (findMatchIdx_eq_none_iff _ _).mp hf
      refine ⟨name :: pre, post, by rw [hsplit]; rfl, ?_, h2, hrest⟩
      intro m hm2
      rcases List.mem_cons.mp hm2 with rfl | hm3
      · exact hz
      · exact hpre m hm3

/-! ### Helpers for the upsert characterization -/

theorem sheet_of_role_mem (role P : String)
    (h : getSheetNameForRole role = some P) : P ∈ SHEET_NAMES := by
  rw [getSheetNameForRole] at h
  split_ifs at h <;> simp_all [SHEET_NAMES]

theorem countUserAll_eq (ss : Spreadsheet) (uid : String) :
    countUserAll ss uid =
      countUserInSheet ss "Monadians" uid + countUserInSheet ss "Monarch" uid +
        countUserInSheet ss "Monalista" uid := by
  simp [countUserAll, SHEET_NAMES]
  omega

theorem countUser_ensure (ss : Spreadsheet) (n uid : String) :
    countUserInSheet (ensureSheetSetup ss) n uid = countUserInSheet ss n uid := by
  rw [countUserInSheet, countUserInSheet, dataRowsOf_ensure]

theorem countUserAll_ensure (ss : Spreadsheet) (uid : String) :
    countUserAll (ensureSheetSetup ss) uid = countUserAll ss uid := by
  rw [countUserAll_eq, countUserAll_eq, countUser_ensure, countUser_ensure,
    countUser_ensure]

theorem ensure_grid (ss : Spreadsheet) (n : String) (hn : n ∈ SHEET_NAMES) :
    ∃ g, findGrid (ensureSheetSetup ss) n = some g ∧ g ≠ [] := by
  obtain ⟨g, hg⟩ := Option.isSome_iff_exists.mp (findGrid_ensure_isSome ss n hn)
  exact ⟨g, hg, grid_ne_nil_of_headerCells _ n g hg (ensure_headerCells ss n hn)⟩

theorem countUserAll_of_pointwise (ss : Spreadsheet) (uid P : String)
    (hm : P ∈ SHEET_NAMES) (h1 : countUserInSheet ss P uid = 1)
    (h0 : ∀ n ∈ SHEET_NAMES, n ≠ P → countUserInSheet ss n uid = 0) :
    countUserAll ss uid = 1 := by
  rw [countUserAll_eq]
  simp only [SHEET_NAMES, List.mem_cons, List.not_mem_nil, or_false] at hm
  rcases hm with rfl | rfl | rfl
  · rw [h1, h0 "Monarch" (by simp [SHEET_NAMES]) (by decide),
      h0 "Monalista" (by simp [SHEET_NAMES]) (by decide)]
  · rw [h1, h0 "Monadians" (by simp [SHEET_NAMES]) (by decide),
      h0 "Monalista" (by simp [SHEET_NAMES]) (by decide)]
  · rw [h1, h0 "Monadians" (by simp [SHEET_NAMES]) (by decide),
      h0 "Monarch" (by simp [SHEET_NAMES]) (by decide)]

theorem counts_of_total_le_one (ss : Spreadsheet) (uid P : String)
    (hm : P ∈ SHEET_NAMES) (hpos : countUserInSheet ss P uid ≠ 0)
    (htot : countUserAll ss uid ≤ 1) :
    countUserInSheet ss P uid = 1 ∧
      ∀ n ∈ SHEET_NAMES, n ≠ P → countUserInSheet ss n uid = 0 := by
  rw [countUserAll_eq] at htot
  simp only [SHEET_NAMES, List.mem_cons, List.not_mem_nil, or_false] at hm
  rcases hm with rfl | rfl | rfl <;>
    refine ⟨by omega, ?_⟩ <;>
    · intro n hn hne
      simp only [SHEET_NAMES, List.mem_cons, List.not_mem_nil, or_false] at hn
      rcases hn with rfl | rfl | rfl <;> first
        | exact absurd rfl hne
        | omega

theorem rowMatches_newRow (inp : UpsertInput) :
    rowMatches inp.discordId (newRowFor inp) = true := by
  simp [rowMatches, newRowFor]

theorem newRow_take (inp : UpsertInput) (l : List String) :
    (newRowFor inp ++ l).take 4 = newRowFor inp := by
  simp [newRowFor]

theorem newRow_take_self (inp : UpsertInput) :
    (newRowFor inp).take 4 = newRowFor inp := by
  simp [newRowFor]

theorem upsertWallet_skip_eq (ss : Spreadsheet) (inp : UpsertInput)
    (h : getSheetNameForRole inp.role = none) :
    upsertWallet ss inp = (.skipped, ensureSheetSetup ss) := by
  rw [upsertWallet, h]

theorem upsertWallet_fresh_eq (ss : Spreadsheet) (inp : UpsertInput) (P : String)
    (hP : getSheetNameForRole inp.role = some P)
    (hfe : findExisting (ensureSheetSetup ss) inp.discordId = none) :
    upsertWallet ss inp =
      (.inserted, appendRow (ensureSheetSetup ss) P (newRowFor inp)) := by
  rw [upsertWallet, hP, hfe]

theorem upsertWallet_move_eq (ss : Spreadsheet) (inp : UpsertInput)
    (P A : String) (r : Nat) (hP : getSheetNameForRole inp.role = some P)
    (hfe : findExisting (ensureSheetSetup ss) inp.discordId = some (A, r))
    (hne : A ≠ P) :
    upsertWallet ss inp =
      (.inserted,
       appendRow (deleteRowFromSheet (ensureSheetSetup ss) A r) P (newRowFor inp)) := by
  rw [upsertWallet, hP, hfe]
  exact if_pos hne

theorem upsertWallet_update_eq (ss : Spreadsheet) (inp : UpsertInput)
    (P : String) (r : Nat) (hP : getSheetNameForRole inp.role = some P)
    (hfe : findExisting (ensureSheetSetup ss) inp.discordId = some (P, r)) :
    upsertWallet ss inp =
      (.updated, updateRowCells (ensureSheetSetup ss) P r (newRowFor inp)) := by
  rw [upsertWallet, hP, hfe]
  exact if_neg (by simp)

theorem countUser_modify_ne (ss : Spreadsheet) (name n uid : String)
    (f : Grid → Grid) (h : n ≠ name) :
    countUserInSheet (modifyGrid ss name f) n uid = countUserInSheet ss n uid := by
  rw [countUserInSheet, dataRowsOf_modifyGrid_ne _ _ _ _ h, countUserInSheet]

theorem count_after_delete (E : Spreadsheet) (A uid : String) (r : Nat)
    (g : Grid) (hg : findGrid E A = some g) (h2 : 2 ≤ r) (row : Row)
    (hrow : (dataRowsOf E A)[r - 2]? = some row)
    (hm : rowMatches uid row = true) :
    countUserInSheet (deleteRowFromSheet E A r) A uid + 1 =
      countUserInSheet E A uid := by
  rw [countUserInSheet, dataRowsOf_deleteRow_self E A r g hg h2, countUserInSheet]
  have e : r - 1 = (r - 2) + 1 := by omega
  rw [e]
  have := countP_eraseAt (dataRowsOf E A) (rowMatches uid) (r - 2) row hrow
  rw [hm] at this
  simpa using this

theorem countP_replaceAt (l : List Row) (p : Row → Bool) (i : Nat) (x y : Row)
    (hx : l[i]? = some x) :
    (l.take i ++ y :: l.drop (i + 1)).countP p + (if p x then 1 else 0) =
      l.countP p + (if p y then 1 else 0) := by
  rw [List.countP_append, List.countP_cons]
  have h := countP_eraseAt l p i x hx
  rw [List.countP_append] at h
  omega

theorem dataRows_after_update (E : Spreadsheet) (P : String) (r : Nat)
    (g : Grid) (hg : findGrid E P = some g) (h2 : 2 ≤ r) (vals : Row) :
    dataRowsOf (updateRowCells E P r vals) P =
      mapNth (fun old => vals ++ old.drop vals.length) (r - 2) (dataRowsOf E P) := by
  rw [updateRowCells, dataRowsOf_modifyGrid_self E P _ g hg, mapNth_drop_one _ r h2]
  simp [dataRowsOf, hg]

theorem count_after_upd (E : Spreadsheet) (P uid : String) (r : Nat) (g : Grid)
    (hg : findGrid E P = some g) (h2 : 2 ≤ r) (row : Row)
    (hrow : (dataRowsOf E P)[r - 2]? = some row)
    (hm : rowMatches uid row = true) (vals : Row)
    (hv : rowMatches uid (vals ++ row.drop vals.length) = true) :
    countUserInSheet (updateRowCells E P r vals) P uid =
      countUserInSheet E P uid := by
  rw [countUserInSheet, dataRows_after_update E P r g hg h2 vals,
    mapNth_eq_decomp _ _ _ row hrow, countUserInSheet]
  have := countP_replaceAt (dataRowsOf E P) (rowMatches uid) (r - 2) row
    (vals ++ row.drop vals.length) hrow
  rw [hm, hv] at this
  omega

/-- Characterization of `upsertWallet` when the role resolves and the userId
occupies at most one row across the three sheets: afterwards exactly one row
holds the userId, it sits in the resolved sheet and carries the new values;
the returned action is `updated` exactly when the user was already in the
target sheet, and is never `skipped`. -/
theorem upsertWallet_master (ss : Spreadsheet) (inp : UpsertInput) (P : String)
    (hP : getSheetNameForRole inp.role = some P)
    (hcount : countUserAll ss inp.discordId ≤ 1) :
    countUserAll (upsertWallet ss inp).2 inp.discordId = 1 ∧
    countUserInSheet (upsertWallet ss inp).2 P inp.discordId = 1 ∧
    (∀ n ∈ SHEET_NAMES, n ≠ P →
      countUserInSheet (upsertWallet ss inp).2 n inp.discordId = 0) ∧
    (∃ r ∈ dataRowsOf (upsertWallet ss inp).2 P, r.take 4 = newRowFor inp) ∧
    ((upsertWallet ss inp).1 = UpsertAction.updated ↔
      countUserInSheet ss P inp.discordId ≠ 0) ∧
    (upsertWallet ss inp).1 ≠ UpsertAction.skipped := by
  have hPmem : P ∈ SHEET_NAMES := sheet_of_role_mem inp.role P hP
  obtain ⟨gP, hgP, hgPne⟩ := ensure_grid ss P hPmem
  have hcountE : countUserAll (ensureSheetSetup ss) inp.discordId ≤ 1 := by
    rw [countUserAll_ensure]; exact hcount
  cases hfe : findExisting (ensureSheetSetup ss) inp.discordId with
  | none =>
    rw [upsertWallet_fresh_eq ss inp P hP hfe]
    have hzero := (findExistingIn_eq_none_iff (ensureSheetSetup ss)
      inp.discordId SHEET_NAMES).mp hfe
    have hP1 : countUserInSheet (appendRow (ensureSheetSetup ss) P (newRowFor inp))
        P inp.discordId = 1 := by
      rw [countUserInSheet,
        dataRowsOf_appendRow (ensureSheetSetup ss) P (newRowFor inp) gP hgP hgPne,
        List.countP_append]
      have h0 : countUserInSheet (ensureSheetSetup ss) P inp.discordId = 0 :=
        hzero P hPmem
      rw [countUserInSheet] at h0
      rw [h0]
      simp [rowMatches_newRow]
    have hPother : ∀ n ∈ SHEET_NAMES, n ≠ P →
        countUserInSheet (appendRow (ensureSheetSetup ss) P (newRowFor inp))
          n inp.discordId = 0 := by
      intro n hn hne
      rw [countUserInSheet, dataRowsOf_appendRow_ne _ P n _ hne]
      have := hzero n hn
      rw [countUserInSheet] at this
      exact this
    refine ⟨countUserAll_of_pointwise _ inp.discordId P hPmem hP1 hPother,
      hP1, hPother, ?_, ?_, by simp⟩
    · refine ⟨newRowFor inp, ?_, newRow_take_self inp⟩
      rw [dataRowsOf_appendRow (ensureSheetSetup ss) P (newRowFor inp) gP hgP hgPne]
      simp
    · constructor
      · intro hc
        simp at hc
      · intro hc
        have := hzero P hPmem
        rw [countUser_ensure] at this
        exact absurd this hc
  | some loc =>
    obtain ⟨A, r⟩ := loc
    obtain ⟨pre, post, hsplit, hpre, h2r, row, hrow, hmrow, hbefore⟩ :=
      findExistingIn_eq_some (ensureSheetSetup ss) inp.discordId SHEET_NAMES A r hfe
    have hAmem : A ∈ SHEET_NAMES := by
      rw [hsplit]
      simp
    obtain ⟨gA, hgA, hgAne⟩ := ensure_grid ss A hAmem
    have hApos : countUserInSheet (ensureSheetSetup ss) A inp.discordId ≠ 0 :=
      countUserInSheet_ne_zero_of_match _ A inp.discordId (r - 2) row hrow hmrow
    obtain ⟨hA1, hAother⟩ := counts_of_total_le_one (ensureSheetSetup ss)
      inp.discordId A hAmem hApos hcountE
    by_cases hAP : A = P
    · subst hAP
      rw [upsertWallet_update_eq ss inp A r hP hfe]
      have hupd1 : countUserInSheet
          (updateRowCells (ensureSheetSetup ss) A r (newRowFor inp))
          A inp.discordId = 1 := by
        rw [count_after_upd (ensureSheetSetup ss) A inp.discordId r gA hgA h2r
          row hrow hmrow (newRowFor inp) (by simp [rowMatches, newRowFor])]
        exact hA1
      have hupdother : ∀ n ∈ SHEET_NAMES, n ≠ A →
          countUserInSheet (updateRowCells (ensureSheetSetup ss) A r (newRowFor inp))
            n inp.discordId = 0 := by
        intro n hn hne
        rw [countUserInSheet, updateRowCells, dataRowsOf_modifyGrid_ne _ A n _ hne]
        have := hAother n hn hne
        rw [countUserInSheet] at this
        exact this
      refine ⟨countUserAll_of_pointwise _ inp.discordId A hAmem hupd1 hupdother,
        hupd1, hupdother, ?_, ?_, by simp⟩
      · refine ⟨newRowFor inp ++ row.drop (newRowFor inp).length, ?_, ?_⟩
        · rw [dataRows_after_update (ensureSheetSetup ss) A r gA hgA h2r,
            mapNth_eq_decomp _ _ _ row hrow]
          simp
        · exact newRow_take inp _
      · constructor
        · intro _
          rw [← countUser_ensure ss A inp.discordId]
          exact hApos
        · intro _
          rfl
    · rw [upsertWallet_move_eq ss inp P A r hP hfe hAP]
      have hPzeroE : countUserInSheet (ensureSheetSetup ss) P inp.discordId = 0 :=
        hAother P hPmem (fun e => hAP e.symm)
      have hdelA : countUserInSheet (deleteRowFromSheet (ensureSheetSetup ss) A r)
          A inp.discordId = 0 := by
        have := count_after_delete (ensureSheetSetup ss) A inp.discordId r gA hgA
          h2r row hrow hmrow
        omega
      have hdel_ne : ∀ n, n ≠ A →
          countUserInSheet (deleteRowFromSheet (ensureSheetSetup ss) A r)
            n inp.discordId = countUserInSheet (ensureSheetSetup ss) n inp.discordId := by
        intro n hne
        rw [countUserInSheet, dataRowsOf_deleteRow_ne _ A n r hne, countUserInSheet]
      have hgPdel : findGrid (deleteRowFromSheet (ensureSheetSetup ss) A r) P = some gP := by
        rw [deleteRowFromSheet, findGrid_modifyGrid_ne _ A P _ (fun e => hAP e.symm)]
        exact hgP
      have hP1 : countUserInSheet
          (appendRow (deleteRowFromSheet (ensureSheetSetup ss) A r) P (newRowFor inp))
          P inp.discordId = 1 := by
        rw [countUserInSheet, dataRowsOf_appendRow _ P (newRowFor inp) gP hgPdel hgPne,
          List.countP_append]
        have h0 := hdel_ne P (fun e => hAP e.symm)
        rw [hPzeroE] at h0
        rw [countUserInSheet] at h0
        rw [h0]
        simp [rowMatches_newRow]
      have hPother : ∀ n ∈ SHEET_NAMES, n ≠ P →
          countUserInSheet
            (appendRow (deleteRowFromSheet (ensureSheetSetup ss) A r) P (newRowFor inp))
            n inp.discordId = 0 := by
        intro n hn hne
        rw [appendRow, countUser_modify_ne _ P n _ _ hne]
        by_cases hnA : n = A
        · subst hnA
          exact hdelA
        · rw [hdel_ne n hnA]
          exact hAother n hn hnA
      refine ⟨countUserAll_of_pointwise _ inp.discordId P hPmem hP1 hPother,
        hP1, hPother, ?_, ?_, by simp⟩
      · refine ⟨newRowFor inp, ?_, newRow_take_self inp⟩
        rw [dataRowsOf_appendRow _ P (newRowFor inp) gP hgPdel hgPne]
        simp
      · constructor
        · intro hc
          simp at hc
        · intro hc
          rw [← countUser_ensure ss P inp.discordId] at hc
          exact absurd hPzeroE hc

/-! ### Claim C1 -/

/-- Claim C1, counterexample to the claim as stated: in `ssDupRows` the
userId `id1` appears in at most one partition (only Monadians), its role
resolves to Monarch, yet after `upsertWallet` two rows bearing `id1` remain
across the three sheets and the old partition still holds one of them. -/
theorem upsert_single_partition_precondition_cex :
    partitionsContaining ssDupRows "id1" ≤ 1 ∧
    getSheetNameForRole "Monarch" = some "Monarch" ∧
    countUserAll (upsertWallet ssDupRows
      ⟨"id1", "alice", "0xA", "Monarch"⟩).2 "id1" = 2 ∧
    countUserInSheet (upsertWallet ssDupRows
      ⟨"id1", "alice", "0xA", "Monarch"⟩).2 "Monadians" "id1" = 1 := by
  decide

/-- Claim C1 (amended: the precondition is that at most one row bears the
userId across the three partitions, rather than that at most one partition
contains it): after `upsertWallet` with a resolvable role, exactly one row
across the three partitions bears the userId, it lies in the resolved
partition and its four schema cells hold the latest values, and every other
partition holds zero rows for that userId. -/
theorem upsert_unique_row_invariant (ss : Spreadsheet) (inp : UpsertInput)
    (P : String) (hP : getSheetNameForRole inp.role = some P)
    (hcount : countUserAll ss inp.discordId ≤ 1) :
    countUserAll (upsertWallet ss inp).2 inp.discordId = 1 ∧
    countUserInSheet (upsertWallet ss inp).2 P inp.discordId = 1 ∧
    (∀ n ∈ SHEET_NAMES, n ≠ P →
      countUserInSheet (upsertWallet ss inp).2 n inp.discordId = 0) ∧
    ∃ r ∈ dataRowsOf (upsertWallet ss inp).2 P, r.take 4 = newRowFor inp := by
  obtain ⟨h1, h2, h3, h4, _, _⟩ := upsertWallet_master ss inp P hP hcount
  exact ⟨h1, h2, h3, h4⟩

theorem upsert_unique_row_invariant_witness :
    getSheetNameForRole "Monarch" = some "Monarch" ∧
    countUserAll ssOneRow "id1" ≤ 1 ∧
    countUserAll (upsertWallet ssOneRow
      ⟨"id1", "alice", "0xA", "Monarch"⟩).2 "id1" = 1 ∧
    countUserInSheet (upsertWallet ssOneRow
      ⟨"id1", "alice", "0xA", "Monarch"⟩).2 "Monadians" "id1" = 0 :=
  ⟨by decide, by decide,
   (upsert_unique_row_invariant ssOneRow ⟨"id1", "alice", "0xA", "Monarch"⟩
     "Monarch" (by decide) (by decide)).1,
   (upsert_unique_row_invariant ssOneRow ⟨"id1", "alice", "0xA", "Monarch"⟩
     "Monarch" (by decide) (by decide)).2.2.1 "Monadians" (by decide) (by decide)⟩

/-! ### Claim C3 -/

/-- Claim C3: when the role label resolves to no partition (the empty string
included), `upsertWallet` reports `skipped` and leaves every data row of
every sheet exactly as it was. -/
theorem upsert_skip_frame (ss : Spreadsheet) (inp : UpsertInput)
    (h : getSheetNameForRole inp.role = none) :
    (upsertWallet ss inp).1 = UpsertAction.skipped ∧
    ∀ name, dataRowsOf (upsertWallet ss inp).2 name = dataRowsOf ss name := by
  rw [upsertWallet_skip_eq ss inp h]
  exact ⟨rfl, fun name => dataRowsOf_ensure ss name⟩

theorem upsert_skip_frame_witness :
    getSheetNameForRole "" = none ∧
    (upsertWallet ssOneRow ⟨"id1", "alice", "0xA", ""⟩).1 =
      UpsertAction.skipped ∧
    dataRowsOf (upsertWallet ssOneRow ⟨"id1", "alice", "0xA", ""⟩).2
      "Monadians" = [["u1", "id1", "w1", "Monadian"]] :=
  ⟨by decide,
   (upsert_skip_frame ssOneRow ⟨"id1", "alice", "0xA", ""⟩ (by decide)).1,
   by rw [(upsert_skip_frame ssOneRow ⟨"id1", "alice", "0xA", ""⟩
       (by decide)).2 "Monadians"]
      decide⟩

/-! ### Claim C4 -/

/-- Claim C4, counterexample to the claim as stated: `id1` appears in at most
one partition of `ssDupRows` (but on two rows); after two identical upserts
with a resolvable role, two rows for `id1` remain rather than exactly one,
although the second call does return `updated`. -/
theorem upsert_idempotence_cex :
    partitionsContaining ssDupRows "id1" ≤ 1 ∧
    getSheetNameForRole "Monadian" = some "Monadians" ∧
    (upsertWallet (upsertWallet ssDupRows
        ⟨"id1", "alice", "0xA", "Monadian"⟩).2
      ⟨"id1", "alice", "0xA", "Monadian"⟩).1 = UpsertAction.updated ∧
    countUserAll (upsertWallet (upsertWallet ssDupRows
        ⟨"id1", "alice", "0xA", "Monadian"⟩).2
      ⟨"id1", "alice", "0xA", "Monadian"⟩).2 "id1" = 2 := by
  decide

/-- Claim C4 (amended: the precondition is that at most one row bears the
userId across the three partitions): calling `upsertWallet` twice with
identical inputs and a resolvable role leaves exactly one row for the
userId, holding the latest values, and the second call returns `updated`. -/
theorem upsert_idempotent (ss : Spreadsheet) (inp : UpsertInput) (P : String)
    (hP : getSheetNameForRole inp.role = some P)
    (hcount : countUserAll ss inp.discordId ≤ 1) :
    (upsertWallet (upsertWallet ss inp).2 inp).1 = UpsertAction.updated ∧
    countUserAll (upsertWallet (upsertWallet ss inp).2 inp).2 inp.discordId = 1 ∧
    ∃ r ∈ dataRowsOf (upsertWallet (upsertWallet ss inp).2 inp).2 P,
      r.take 4 = newRowFor inp := by
  obtain ⟨h1, h2, _, _, _, _⟩ := upsertWallet_master ss inp P hP hcount
  have hcount1 : countUserAll (upsertWallet ss inp).2 inp.discordId ≤ 1 := by
    rw [h1]
  obtain ⟨g1, _, _, g4, g5, _⟩ :=
    upsertWallet_master (upsertWallet ss inp).2 inp P hP hcount1
  refine ⟨?_, g1, g4⟩
  rw [g5, h2]
  exact one_ne_zero

theorem upsert_idempotent_witness :
    getSheetNameForRole "Monarch" = some "Monarch" ∧
    countUserAll ssOneRow "id1" ≤ 1 ∧
    (upsertWallet (upsertWallet ssOneRow
        ⟨"id1", "alice", "0xA", "Monarch"⟩).2
      ⟨"id1", "alice", "0xA", "Monarch"⟩).1 = UpsertAction.updated ∧
    countUserAll (upsertWallet (upsertWallet ssOneRow
        ⟨"id1", "alice", "0xA", "Monarch"⟩).2
      ⟨"id1", "alice", "0xA", "Monarch"⟩).2 "id1" = 1 :=
  ⟨by decide, by decide,
   (upsert_idempotent ssOneRow ⟨"id1", "alice", "0xA", "Monarch"⟩ "Monarch"
     (by decide) (by decide)).1,
   (upsert_idempotent ssOneRow ⟨"id1", "alice", "0xA", "Monarch"⟩ "Monarch"
     (by decide) (by decide)).2.1⟩

/-! ### Claim C7 -/

/-- Claim C7: `getSheetNameForRole` is a pure function that depends only on
the lower-cased label, maps exactly the three known labels (case
insensitively) to their sheets, and maps every other string, the empty
string included, to `none`; a resolved sheet is always one of the three. -/
theorem resolve_partition_spec :
    (∀ s t : String, strToLower s = strToLower t →
      getSheetNameForRole s = getSheetNameForRole t) ∧
    (∀ s : String,
      getSheetNameForRole s = some "Monadians" ↔ strToLower s = "monadian") ∧
    (∀ s : String,
      getSheetNameForRole s = some "Monarch" ↔ strToLower s = "monarch") ∧
    (∀ s : String,
      getSheetNameForRole s = some "Monalista" ↔ strToLower s = "monalista") ∧
    (∀ s : String, getSheetNameForRole s = none ↔
      strToLower s ∉ (["monadian", "monarch", "monalista"] : List String)) ∧
    getSheetNameForRole "" = none ∧
    (∀ s P, getSheetNameForRole s = some P → P ∈ SHEET_NAMES) := by
  refine ⟨?_, ?_, ?_, ?_, ?_, by decide, fun s P h => sheet_of_role_mem s P h⟩
  · intro s t h
    simp [getSheetNameForRole, h]
  · intro s
    rw [getSheetNameForRole]
    split_ifs with h1 h2 h3 <;> simp_all
  · intro s
    rw [getSheetNameForRole]
    split_ifs with h1 h2 h3 <;> simp_all
  · intro s
    rw [getSheetNameForRole]
    split_ifs with h1 h2 h3 <;> simp_all
  · intro s
    rw [getSheetNameForRole]
    split_ifs with h1 h2 h3 <;> simp_all

theorem resolve_partition_spec_witness :
    strToLower "MONADIAN" = strToLower "Monadian" ∧
    getSheetNameForRole "MONADIAN" = getSheetNameForRole "Monadian" ∧
    getSheetNameForRole "xyz" = none :=
  ⟨by decide,
   resolve_partition_spec.1 "MONADIAN" "Monadian" (by decide),
   (resolve_partition_spec.2.2.2.2.1 "xyz").mpr (by decide)⟩

/-! ### Claim C8 -/

theorem find?_of_findMatchIdx_none (p : Row → Bool) (l : List Row)
    (h : findMatchIdx p l = none) : l.find? p = none := by
  induction l with
  | nil => rfl
  | cons r t ih =>
    by_cases hp : p r = true
    · simp [findMatchIdx, hp] at h
    · simp only [Bool.not_eq_true] at hp
      simp only [findMatchIdx, hp, Bool.false_eq_true, if_false,
        Option.map_eq_none'] at h
      rw [List.find?_cons, hp]
      exact ih h

theorem find?_of_findMatchIdx_some (p : Row → Bool) (l : List Row) (i : Nat)
    (h : findMatchIdx p l = some i) :
    ∃ row, l[i]? = some row ∧ l.find? p = some row := by
  induction l generalizing i with
  | nil => simp [findMatchIdx] at h
  | cons r t ih =>
    by_cases hp : p r = true
    · simp [findMatchIdx, hp] at h
      subst h
      refine ⟨r, by simp, ?_⟩
      rw [List.find?_cons, hp]
    · simp only [Bool.not_eq_true] at hp
      simp [findMatchIdx, hp] at h
      obtain ⟨i2, hi2, rfl⟩ := h
      obtain ⟨row, hrow, hfind⟩ := ih i2 hi2
      refine ⟨row, by simpa using hrow, ?_⟩
      rw [List.find?_cons, hp]
      exact hfind

theorem getWalletScanIn_agrees (ss : Spreadsheet) (uid : String)
    (names : List String) :
    (findExistingIn ss uid names = none →
      getWalletScanIn ss uid names = none) ∧
    (∀ n r, findExistingIn ss uid names = some (n, r) →
      ∃ row, (dataRowsOf ss n)[r - 2]? = some row ∧
        getWalletScanIn ss uid names = some (recordOfRow row)) := by
  induction names with
  | nil => exact ⟨fun _ => rfl, fun n r h => by simp [findExistingIn] at h⟩
  | cons name rest ih =>
    cases hf : findMatchIdx (rowMatches uid) (dataRowsOf ss name) with
    | some i =>
      obtain ⟨row, hrow, hfind⟩ := find?_of_findMatchIdx_some _ _ i hf
      constructor
      · intro h
        simp [findExistingIn, hf] at h
      · intro n r h
        simp only [findExistingIn, hf, Option.some_inj, Prod.mk.injEq] at h
        obtain ⟨rfl, rfl⟩ := h
        have e : i + 2 - 2 = i := by omega
        refine ⟨row, by rw [e]; exact hrow, ?_⟩
        rw [getWalletScanIn, hfind]
    | none =>
      have hfind := find?_of_findMatchIdx_none _ _ hf
      constructor
      · intro h
        simp only [findExistingIn, hf] at h
        rw [getWalletScanIn, hfind]
        exact ih.1 h
      · intro n r h
        simp only [findExistingIn, hf] at h
        obtain ⟨row, hrow, hscan⟩ := ih.2 n r h
        refine ⟨row, hrow, ?_⟩
        rw [getWalletScanIn, hfind]
        exact hscan

/-- Claim C8: the record locator scans the sheets in the fixed priority order
Monadians, Monarch, Monalista and each sheet's data rows in row order.  It
returns `none` exactly when no row matches anywhere; a returned location
`(n, r)` points at a matching row, every earlier row of that sheet and every
row of every earlier sheet does not match (so a duplicate in a
lower-priority sheet is silently ignored); and the `getWallet` scan returns
the record built from exactly the row the location scan finds. -/
theorem record_locator_spec (ss : Spreadsheet) (uid : String) :
    (findExisting ss uid = none ↔
      ∀ n ∈ SHEET_NAMES, countUserInSheet ss n uid = 0) ∧
    (∀ n r, findExisting ss uid = some (n, r) →
      (n ∈ SHEET_NAMES ∧ 2 ≤ r) ∧
      (∃ pre post, SHEET_NAMES = pre ++ n :: post ∧
        ∀ m ∈ pre, countUserInSheet ss m uid = 0) ∧
      (∃ row, (dataRowsOf ss n)[r - 2]? = some row ∧
        rowMatches uid row = true ∧
        ∀ j < r - 2, ∀ row2, (dataRowsOf ss n)[j]? = some row2 →
          rowMatches uid row2 = false)) ∧
    (findExisting ss uid = none → getWalletScanIn ss uid SHEET_NAMES = none) ∧
    (∀ n r, findExisting ss uid = some (n, r) →
      ∃ row, (dataRowsOf ss n)[r - 2]? = some row ∧
        getWalletScanIn ss uid SHEET_NAMES = some (recordOfRow row)) ∧
    (getWallet ss uid).1 = getWalletScanIn (ensureSheetSetup ss) uid SHEET_NAMES := by
  refine ⟨findExistingIn_eq_none_iff ss uid SHEET_NAMES, ?_,
    (getWalletScanIn_agrees ss uid SHEET_NAMES).1,
    (getWalletScanIn_agrees ss uid SHEET_NAMES).2, rfl⟩
  intro n r h
  obtain ⟨pre, post, hsplit, hpre, h2, row, hrow, hm, hbefore⟩ :=
    findExistingIn_eq_some ss uid SHEET_NAMES n r h
  exact ⟨⟨by rw [hsplit]; simp, h2⟩, ⟨pre, post, hsplit, hpre⟩,
    row, hrow, hm, hbefore⟩

theorem record_locator_spec_witness :
    findExisting ssDupAcross "id9" = some ("Monarch", 2) ∧
    countUserInSheet ssDupAcross "Monalista" "id9" ≠ 0 ∧
    ("Monarch" ∈ SHEET_NAMES ∧ 2 ≤ 2) :=
  ⟨by decide, by decide,
   ((record_locator_spec ssDupAcross "id9").2.1 "Monarch" 2 (by decide)).1⟩

/-! ### Claim C5 -/

theorem setCell_length (r : Row) (v : String) : 4 ≤ (setCell r 3 v).length := by
  rw [setCell, List.length_set, List.length_append, List.length_replicate]
  omega

theorem setCell_getElem_three (r : Row) (v : String) :
    (setCell r 3 v)[3]? = some v := by
  rw [setCell, List.getElem?_set_self]
  rw [List.length_append, List.length_replicate]
  omega

theorem setCell_effCell_lt (r : Row) (v : String) (j : Nat) (hj : j < 3) :
    effCell (setCell r 3 v) j = effCell r j := by
  rw [effCell, effCell, setCell, List.getElem?_set_ne (by omega)]
  by_cases hlen : j < r.length
  · rw [List.getElem?_append_left hlen]
  · have h1 : r.length ≤ j := by omega
    rw [List.getElem?_append_right h1,
      List.getElem?_replicate_of_lt (by omega),
      List.getElem?_eq_none h1]
    rfl

theorem dataRows_mapNth (E : Spreadsheet) (name : String) (r : Nat)
    (f : Row → Row) (g : Grid) (hg : findGrid E name = some g) (h2 : 2 ≤ r) :
    dataRowsOf (modifyGrid E name (mapNth f (r - 1))) name =
      mapNth f (r - 2) (dataRowsOf E name) := by
  rw [dataRowsOf_modifyGrid_self E name _ g hg, mapNth_drop_one _ r h2]
  simp [dataRowsOf, hg]

theorem reconcileStep_none (c : Nat × Nat) (st : Spreadsheet) (u : RoleUpdate)
    (h : getSheetNameForRole u.newRole = none) :
    reconcileStep (c, st) u =
      ((c.1 + 1, c.2), deleteRowFromSheet st u.sheetName u.rowNumber) := by
  rw [reconcileStep, h]

theorem reconcileStep_move (c : Nat × Nat) (st : Spreadsheet) (u : RoleUpdate)
    (t : String) (h : getSheetNameForRole u.newRole = some t)
    (hne : u.sheetName ≠ t) :
    reconcileStep (c, st) u =
      ((c.1, c.2 + 1),
       (upsertWallet (deleteRowFromSheet st u.sheetName u.rowNumber)
         ⟨u.discordId, u.discordUsername, u.wallet, u.newRole⟩).2) := by
  rw [reconcileStep, h]
  exact if_pos hne

theorem reconcileStep_same (c : Nat × Nat) (st : Spreadsheet) (u : RoleUpdate)
    (h : getSheetNameForRole u.newRole = some u.sheetName) :
    reconcileStep (c, st) u =
      ((c.1 + 1, c.2), updateRoleCell st u.sheetName u.rowNumber u.newRole) := by
  rw [reconcileStep, h]
  exact if_neg (by simp)

theorem reconcile_counts_fold (updates : List RoleUpdate) :
    ∀ (c : Nat × Nat) (st : Spreadsheet),
      (updates.foldl reconcileStep (c, st)).1 =
        (c.1 + updates.countP (fun u => !(isMoveUpdate u)),
         c.2 + updates.countP isMoveUpdate) := by
  induction updates with
  | nil => intro c st; simp
  | cons u rest ih =>
    intro c st
    rw [List.foldl_cons]
    cases hr : getSheetNameForRole u.newRole with
    | none =>
      have hmv : isMoveUpdate u = false := by rw [isMoveUpdate, hr]
      rw [reconcileStep_none c st u hr, ih]
      rw [Prod.mk.injEq]
      simp [List.countP_cons, hmv]
      omega
    | some t =>
      by_cases hne : u.sheetName ≠ t
      · have hmv : isMoveUpdate u = true := by
          rw [isMoveUpdate, hr]
          simp
          exact fun e => hne e.symm
        rw [reconcileStep_move c st u t hr hne, ih]
        rw [Prod.mk.injEq]
        simp [List.countP_cons, hmv]
        omega
      · simp only [not_ne_iff] at hne
        subst hne
        have hmv : isMoveUpdate u = false := by
          rw [isMoveUpdate, hr]
          simp
        rw [reconcileStep_same c st u hr, ih]
        rw [Prod.mk.injEq]
        simp [List.countP_cons, hmv]
        omega

theorem batchUpdateRoles_single (ss : Spreadsheet) (u : RoleUpdate) :
    batchUpdateRoles ss [u] = reconcileStep ((0, 0), ensureSheetSetup ss) u := by
  rw [batchUpdateRoles, if_neg (by simp)]
  rw [List.foldl_cons, List.foldl_nil]

/-- Claim C5: `batchUpdateRoles` processes its transitions sequentially; a
transition with an unresolvable role deletes the addressed row and counts as
updated, a transition whose resolved sheet differs deletes the addressed row
and performs a full upsert into the resolved sheet counting as moved, and a
same-sheet transition overwrites only the role column of the addressed row
(all other cells of that row read back unchanged and every other row and
sheet is untouched) counting as updated; the returned pair is exactly
(updated tally, moved tally). -/
theorem reconcile_transitions_spec :
    (∀ (ss : Spreadsheet) (updates : List RoleUpdate),
      (batchUpdateRoles ss updates).1 =
        (updates.countP (fun u => !(isMoveUpdate u)),
         updates.countP isMoveUpdate)) ∧
    (∀ (ss : Spreadsheet) (u : RoleUpdate),
      getSheetNameForRole u.newRole = none →
      batchUpdateRoles ss [u] =
        ((1, 0), deleteRowFromSheet (ensureSheetSetup ss) u.sheetName u.rowNumber)) ∧
    (∀ (ss : Spreadsheet) (u : RoleUpdate) (t : String),
      getSheetNameForRole u.newRole = some t → t ≠ u.sheetName →
      batchUpdateRoles ss [u] =
        ((0, 1),
         (upsertWallet
           (deleteRowFromSheet (ensureSheetSetup ss) u.sheetName u.rowNumber)
           ⟨u.discordId, u.discordUsername, u.wallet, u.newRole⟩).2)) ∧
    (∀ (ss : Spreadsheet) (u : RoleUpdate),
      getSheetNameForRole u.newRole = some u.sheetName → 2 ≤ u.rowNumber →
      (batchUpdateRoles ss [u]).1 = (1, 0) ∧
      (∀ n, n ≠ u.sheetName →
        dataRowsOf (batchUpdateRoles ss [u]).2 n = dataRowsOf ss n) ∧
      (∀ j, j ≠ u.rowNumber - 2 →
        (dataRowsOf (batchUpdateRoles ss [u]).2 u.sheetName)[j]? =
          (dataRowsOf ss u.sheetName)[j]?) ∧
      (∀ row, (dataRowsOf ss u.sheetName)[u.rowNumber - 2]? = some row →
        ∃ row2,
          (dataRowsOf (batchUpdateRoles ss [u]).2 u.sheetName)[u.rowNumber - 2]? =
            some row2 ∧
          effCell row2 0 = effCell row 0 ∧ effCell row2 1 = effCell row 1 ∧
          effCell row2 2 = effCell row 2 ∧ row2[3]? = some u.newRole)) := by
  refine ⟨?_, ?_, ?_, ?_⟩
  · intro ss updates
    rw [batchUpdateRoles]
    by_cases he : updates.isEmpty
    · rw [if_pos he]
      rw [List.isEmpty_iff] at he
      subst he
      simp
    · rw [if_neg he, reconcile_counts_fold updates (0, 0) (ensureSheetSetup ss)]
      simp
  · intro ss u h
    rw [batchUpdateRoles_single, reconcileStep_none _ _ u h]
  · intro ss u t h hne
    rw [batchUpdateRoles_single, reconcileStep_move _ _ u t h (fun e => hne e.symm)]
  · intro ss u h h2
    have hmem : u.sheetName ∈ SHEET_NAMES := sheet_of_role_mem u.newRole _ h
    obtain ⟨g, hg, hgne⟩ := ensure_grid ss u.sheetName hmem
    rw [batchUpdateRoles_single, reconcileStep_same _ _ u h]
    have hdr : dataRowsOf (updateRoleCell (ensureSheetSetup ss) u.sheetName
        u.rowNumber u.newRole) u.sheetName =
        mapNth (fun old => setCell old 3 u.newRole) (u.rowNumber - 2)
          (dataRowsOf (ensureSheetSetup ss) u.sheetName) := by
      rw [updateRoleCell]
      exact dataRows_mapNth (ensureSheetSetup ss) u.sheetName u.rowNumber _ g hg h2
    refine ⟨rfl, ?_, ?_, ?_⟩
    · intro n hn
      show dataRowsOf (updateRoleCell (ensureSheetSetup ss) u.sheetName
        u.rowNumber u.newRole) n = dataRowsOf ss n
      rw [updateRoleCell, dataRowsOf_modifyGrid_ne _ _ _ _ hn, dataRowsOf_ensure]
    · intro j hj
      show (dataRowsOf (updateRoleCell (ensureSheetSetup ss) u.sheetName
        u.rowNumber u.newRole) u.sheetName)[j]? = _
      rw [hdr, mapNth_getElem, if_neg hj, dataRowsOf_ensure]
    · intro row hrow
      have hrowE : (dataRowsOf (ensureSheetSetup ss) u.sheetName)[u.rowNumber - 2]? =
          some row := by
        rw [dataRowsOf_ensure]
        exact hrow
      refine ⟨setCell row 3 u.newRole, ?_, ?_, ?_, ?_, ?_⟩
      · show (dataRowsOf (updateRoleCell (ensureSheetSetup ss) u.sheetName
          u.rowNumber u.newRole) u.sheetName)[u.rowNumber - 2]? = _
        rw [hdr, mapNth_getElem, if_pos rfl, hrowE]
        rfl
      · exact setCell_effCell_lt row u.newRole 0 (by omega)
      · exact setCell_effCell_lt row u.newRole 1 (by omega)
      · exact setCell_effCell_lt row u.newRole 2 (by omega)
      · exact setCell_getElem_three row u.newRole

theorem reconcile_transitions_spec_witness :
    getSheetNameForRole "" = none ∧
    batchUpdateRoles ssThreeRows [⟨"Monadians", 2, "id2", "u2", "w2", ""⟩] =
      ((1, 0), deleteRowFromSheet (ensureSheetSetup ssThreeRows) "Monadians" 2) :=
  ⟨by decide,
   reconcile_transitions_spec.2.1 ssThreeRows
     ⟨"Monadians", 2, "id2", "u2", "w2", ""⟩ (by decide)⟩

/-! ### Claim C6 -/

theorem backoffDelay_succ (a : Nat) :
    backoffDelay (a + 1) = min (backoffDelay a * 2) 15000 := rfl

theorem callWithRetryGo_ok {ε α : Type} (isRL : ε → Bool)
    (f : Nat → Except ε α) (jitter : Nat → Nat) (e : Nat → ε) (v : α) :
    ∀ (k a : Nat), a + k < 5 →
      (∀ j < k, f (a + j) = .error (e (a + j)) ∧ isRL (e (a + j)) = true) →
      f (a + k) = .ok v →
      callWithRetryGo isRL f jitter a (backoffDelay a) =
        (.ok v, (List.range k).map (fun i => backoffDelay (a + i) + jitter (a + i))) := by
  intro k
  induction k with
  | zero =>
    intro a _ _ hok
    rw [callWithRetryGo, show a = a + 0 from (by omega), hok]
    simp
  | succ k ih =>
    intro a hak hfail hok
    obtain ⟨herr, hrl⟩ := hfail 0 (by omega)
    rw [show a + 0 = a from (by omega)] at herr hrl
    rw [callWithRetryGo, herr]
    simp only []
    rw [if_neg (by simp [maxAttempts, hrl]; omega)]
    have hfail2 : ∀ j < k, f (a + 1 + j) = .error (e (a + 1 + j)) ∧
        isRL (e (a + 1 + j)) = true := by
      intro j hj
      have := hfail (j + 1) (by omega)
      rwa [show a + (j + 1) = a + 1 + j from (by omega)] at this
    have hok2 : f (a + 1 + k) = .ok v := by
      rwa [show a + (k + 1) = a + 1 + k from (by omega)] at hok
    rw [show min (backoffDelay a * 2) 15000 = backoffDelay (a + 1) from rfl,
      ih (a + 1) (by omega) hfail2 hok2]
    simp only []
    rw [List.range_succ_eq_map, List.map_cons, List.map_map]
    refine congrArg _ (congrArg _ ?_)
    refine List.map_congr_left ?_
    intro i _
    simp only [Function.comp_apply]
    rw [show a + (i + 1) = a + 1 + i from (by omega)]

theorem callWithRetryGo_fatal {ε α : Type} (isRL : ε → Bool)
    (f : Nat → Except ε α) (jitter : Nat → Nat) (e : Nat → ε) (err : ε) :
    ∀ (k a : Nat), a + k < 5 →
      (∀ j < k, f (a + j) = .error (e (a + j)) ∧ isRL (e (a + j)) = true) →
      f (a + k) = .error err → isRL err = false →
      callWithRetryGo isRL f jitter a (backoffDelay a) =
        (.error err,
         (List.range k).map (fun i => backoffDelay (a + i) + jitter (a + i))) := by
  intro k
  induction k with
  | zero =>
    intro a _ _ herr hrl
    rw [callWithRetryGo, show a = a + 0 from (by omega), herr]
    simp only []
    rw [if_pos (Or.inl hrl)]
    simp
  | succ k ih =>
    intro a hak hfail herr hrl
    obtain ⟨herr0, hrl0⟩ := hfail 0 (by omega)
    rw [show a + 0 = a from (by omega)] at herr0 hrl0
    rw [callWithRetryGo, herr0]
    simp only []
    rw [if_neg (by simp [maxAttempts, hrl0]; omega)]
    have hfail2 : ∀ j < k, f (a + 1 + j) = .error (e (a + 1 + j)) ∧
        isRL (e (a + 1 + j)) = true := by
      intro j hj
      have := hfail (j + 1) (by omega)
      rwa [show a + (j + 1) = a + 1 + j from (by omega)] at this
    have herr2 : f (a + 1 + k) = .error err := by
      rwa [show a + (k + 1) = a + 1 + k from (by omega)] at herr
    rw [show min (backoffDelay a * 2) 15000 = backoffDelay (a + 1) from rfl,
      ih (a + 1) (by omega) hfail2 herr2 hrl]
    simp only []
    rw [List.range_succ_eq_map, List.map_cons, List.map_map]
    refine congrArg _ (congrArg _ ?_)
    refine List.map_congr_left ?_
    intro i _
    simp only [Function.comp_apply]
    rw [show a + (i + 1) = a + 1 + i from (by omega)]

theorem callWithRetryGo_exhaust {ε α : Type} (isRL : ε → Bool)
    (f : Nat → Except ε α) (jitter : Nat → Nat) (e : Nat → ε) :
    ∀ (k a : Nat), a + k + 1 = 5 →
      (∀ j ≤ k, f (a + j) = .error (e (a + j)) ∧ isRL (e (a + j)) = true) →
      callWithRetryGo isRL f jitter a (backoffDelay a) =
        (.error (e (a + k)),
         (List.range k).map (fun i => backoffDelay (a + i) + jitter (a + i))) := by
  intro k
  induction k with
  | zero =>
    intro a hak hfail
    obtain ⟨herr, _⟩ := hfail 0 (by omega)
    rw [callWithRetryGo, show a = a + 0 from (by omega), herr]
    simp only []
    rw [if_pos (Or.inr (by simp [maxAttempts]; omega))]
    simp
  | succ k ih =>
    intro a hak hfail
    obtain ⟨herr0, hrl0⟩ := hfail 0 (by omega)
    rw [show a + 0 = a from (by omega)] at herr0 hrl0
    rw [callWithRetryGo, herr0]
    simp only []
    rw [if_neg (by simp [maxAttempts, hrl0]; omega)]
    have hfail2 : ∀ j ≤ k, f (a + 1 + j) = .error (e (a + 1 + j)) ∧
        isRL (e (a + 1 + j)) = true := by
      intro j hj
      have := hfail (j + 1) (by omega)
      rwa [show a + (j + 1) = a + 1 + j from (by omega)] at this
    rw [show min (backoffDelay a * 2) 15000 = backoffDelay (a + 1) from rfl,
      ih (a + 1) (by omega) hfail2]
    simp only []
    rw [List.range_succ_eq_map, List.map_cons, List.map_map]
    rw [show a + 1 + k = a + (k + 1) from (by omega)]
    refine congrArg _ (congrArg _ ?_)
    refine List.map_congr_left ?_
    intro i _
    simp only [Function.comp_apply]
    rw [show a + (i + 1) = a + 1 + i from (by omega)]

/-- Claim C6: the retry wrapper retries only on rate-limited failures, for at
most 5 attempts in total; the first success is returned after sleeps of
exactly `backoffDelay i + jitter i` for the preceding failures, where the
backoff starts at 1000ms, doubles each attempt and is capped at 15000ms and
each jitter draw is below 250ms; a non-rate-limited failure propagates
immediately after the sleeps already performed; and after five rate-limited
failures the fifth failure propagates, with four sleeps of approximately
1000, 2000, 4000, 8000ms. -/
theorem callWithRetry_spec {ε α : Type} (isRL : ε → Bool)
    (f : Nat → Except ε α) (jitter : Nat → Nat) (e : Nat → ε)
    (hj : ∀ i, jitter i < 250) :
    (∀ k v, k < 5 →
      (∀ j < k, f j = .error (e j) ∧ isRL (e j) = true) → f k = .ok v →
      callWithRetry isRL f jitter =
        (.ok v, (List.range k).map (fun i => backoffDelay i + jitter i))) ∧
    (∀ k err, k < 5 →
      (∀ j < k, f j = .error (e j) ∧ isRL (e j) = true) →
      f k = .error err → isRL err = false →
      callWithRetry isRL f jitter =
        (.error err, (List.range k).map (fun i => backoffDelay i + jitter i))) ∧
    ((∀ j < 5, f j = .error (e j) ∧ isRL (e j) = true) →
      callWithRetry isRL f jitter =
        (.error (e 4), (List.range 4).map (fun i => backoffDelay i + jitter i))) ∧
    ([backoffDelay 0, backoffDelay 1, backoffDelay 2, backoffDelay 3] =
      [1000, 2000, 4000, 8000] ∧ ∀ i, backoffDelay i ≤ 15000) ∧
    (∀ d ∈ (List.range 4).map (fun i => backoffDelay i + jitter i),
      d ≤ 15000 + 249) := by
  have hcap : ∀ i, backoffDelay i ≤ 15000 := by
    intro i
    cases i with
    | zero => decide
    | succ i2 => rw [backoffDelay_succ]; omega
  refine ⟨?_, ?_, ?_, ⟨by decide, hcap⟩, ?_⟩
  · intro k v hk hfail hok
    have := callWithRetryGo_ok isRL f jitter e v k 0 (by omega)
      (by intro j hjk; simpa using hfail j hjk) (by simpa using hok)
    rw [callWithRetry]
    rw [show (1000 : Nat) = backoffDelay 0 from rfl, this]
    simp
  · intro k err hk hfail herr hrl
    have := callWithRetryGo_fatal isRL f jitter e err k 0 (by omega)
      (by intro j hjk; simpa using hfail j hjk) (by simpa using herr) hrl
    rw [callWithRetry]
    rw [show (1000 : Nat) = backoffDelay 0 from rfl, this]
    simp
  · intro hfail
    have := callWithRetryGo_exhaust isRL f jitter e 4 0 (by omega)
      (by intro j hjk; simpa using hfail j (by omega))
    rw [callWithRetry]
    rw [show (1000 : Nat) = backoffDelay 0 from rfl, this]
    simp
  · intro d hd
    simp only [List.mem_map, List.mem_range] at hd
    obtain ⟨i2, _, rfl⟩ := hd
    have := hcap i2
    have := hj i2
    omega

theorem callWithRetry_spec_witness :
    callWithRetry (fun b : Bool => b)
      (fun i => if i < 4 then Except.error true else Except.ok 42)
      (fun _ => 0) =
      (Except.ok 42, [1000, 2000, 4000, 8000]) := by
  have h := (callWithRetry_spec (fun b : Bool => b)
    (fun i => if i < 4 then Except.error true else Except.ok 42)
    (fun _ => 0) (fun _ => true) (fun i => by simp)).1 4 42 (by omega)
    (fun j hj => by simp [hj]) (by simp)
  rw [h]
  rfl

/-! ### Claim C9 -/

/-- Claim C9, counterexample to the claim as stated: `batchUpdateRoles`
returns before invoking `ensureSheetSetup` when its update list is empty, so
it is not true that every exported data operation starts with the setup
call: running it on a spreadsheet with no sheets changes nothing, the
Monadians sheet still does not exist afterwards, and pre-ensuring the state
changes the result. -/
theorem ensure_invocation_cex :
    batchUpdateRoles (ensureSheetSetup ([] : Spreadsheet)) [] ≠
      batchUpdateRoles ([] : Spreadsheet) [] ∧
    findGrid (batchUpdateRoles ([] : Spreadsheet) []).2 "Monadians" = none := by
  decide

/-- Claim C9 (amended: `ensureSheetSetup` opens every exported data operation
except `batchUpdateRoles` with an empty update list, which returns
`{updated: 0, moved: 0}` without touching the spreadsheet): after
`ensureSheetSetup` all three sheets exist with header row exactly
`HEADER_ROW`, a header already equal to the schema is not rewritten (the
sheet's grid is untouched), data rows are never altered by it, and every
exported operation is insensitive to pre-ensuring its input state — the
observable trace of the setup call running first. -/
theorem ensure_header_invariant :
    (∀ (ss : Spreadsheet) (n : String), n ∈ SHEET_NAMES →
      (findGrid (ensureSheetSetup ss) n).isSome ∧
      headerCellsOf (ensureSheetSetup ss) n = HEADER_ROW) ∧
    (∀ (ss : Spreadsheet) (n : String),
      headerNeedsRewrite (headerCellsOf ss n) = false →
      findGrid (ensureSheetSetup ss) n = findGrid ss n) ∧
    (∀ (ss : Spreadsheet) (n : String),
      dataRowsOf (ensureSheetSetup ss) n = dataRowsOf ss n) ∧
    (∀ (ss : Spreadsheet) (inp : UpsertInput),
      upsertWallet (ensureSheetSetup ss) inp = upsertWallet ss inp) ∧
    (∀ (ss : Spreadsheet) (uid : String),
      getWallet (ensureSheetSetup ss) uid = getWallet ss uid) ∧
    (∀ ss : Spreadsheet, listWallets (ensureSheetSetup ss) = listWallets ss) ∧
    (∀ ss : Spreadsheet,
      listWalletsWithRow (ensureSheetSetup ss) = listWalletsWithRow ss) ∧
    (∀ (ss : Spreadsheet) (items : Option (List DeleteItem)),
      batchDeleteRows (ensureSheetSetup ss) items = batchDeleteRows ss items) ∧
    (∀ (ss : Spreadsheet) (updates : List RoleUpdate), updates ≠ [] →
      batchUpdateRoles (ensureSheetSetup ss) updates =
        batchUpdateRoles ss updates) ∧
    (∀ ss : Spreadsheet, batchUpdateRoles ss [] = ((0, 0), ss)) := by
  refine ⟨?_, findGrid_ensure_of_good, dataRowsOf_ensure, ?_, ?_, ?_, ?_, ?_, ?_, ?_⟩
  · intro ss n hn
    exact ⟨findGrid_ensure_isSome ss n hn, ensure_headerCells ss n hn⟩
  · intro ss inp
    unfold upsertWallet
    rw [ensure_idem]
  · intro ss uid
    unfold getWallet
    rw [ensure_idem]
  · intro ss
    unfold listWallets
    rw [ensure_idem]
  · intro ss
    unfold listWalletsWithRow
    rw [ensure_idem]
  · intro ss items
    unfold batchDeleteRows
    rw [ensure_idem]
  · intro ss updates h
    unfold batchUpdateRoles
    rw [if_neg (by simp [h]), if_neg (by simp [h]), ensure_idem]
  · intro ss
    rfl

theorem ensure_header_invariant_witness :
    ("Monadians" ∈ SHEET_NAMES ∧
      headerCellsOf (ensureSheetSetup ssOneRow) "Monadians" = HEADER_ROW) ∧
    headerNeedsRewrite (headerCellsOf ssOneRow "Monadians") = false ∧
    findGrid (ensureSheetSetup ssOneRow) "Monadians" =
      findGrid ssOneRow "Monadians" ∧
    batchUpdateRoles (ensureSheetSetup ssOneRow)
        [⟨"Monadians", 2, "id1", "u1", "w1", ""⟩] =
      batchUpdateRoles ssOneRow [⟨"Monadians", 2, "id1", "u1", "w1", ""⟩] :=
  ⟨⟨by decide, (ensure_header_invariant.1 ssOneRow "Monadians" (by decide)).2⟩,
   by decide,
   ensure_header_invariant.2.1 ssOneRow "Monadians" (by decide),
   ensure_header_invariant.2.2.2.2.2.2.2.2.1 ssOneRow
     [⟨"Monadians", 2, "id1", "u1", "w1", ""⟩] (by simp)⟩

/-! ### List machinery for `batchDeleteRows` -/

theorem dedupFirst_go (l : List Int) :
    ∀ acc : List Int, acc.Nodup →
      (l.foldl (fun acc x => if acc.contains x then acc else acc ++ [x]) acc).Nodup ∧
      (∀ x, x ∈ l.foldl (fun acc x => if acc.contains x then acc else acc ++ [x]) acc ↔
        x ∈ acc ∨ x ∈ l) := by
  induction l with
  | nil =>
    intro acc hnd
    simpa using hnd
  | cons y t ih =>
    intro acc hnd
    simp only [List.foldl_cons]
    by_cases hy : acc.contains y = true
    · rw [if_pos hy]
      have hmem : y ∈ acc := by simpa using hy
      obtain ⟨h1, h2⟩ := ih acc hnd
      refine ⟨h1, fun x => ?_⟩
      rw [h2]
      simp only [List.mem_cons]
      constructor
      · rintro (h | h)
        · exact Or.inl h
        · exact Or.inr (Or.inr h)
      · rintro (h | rfl | h)
        · exact Or.inl h
        · exact Or.inl hmem
        · exact Or.inr h
    · rw [if_neg hy]
      have hny : y ∉ acc := by simpa using hy
      have hnd2 : (acc ++ [y]).Nodup := by
        rw [List.nodup_append]
        refine ⟨hnd, by simp, ?_⟩
        simpa [List.disjoint_singleton] using hny
      obtain ⟨h1, h2⟩ := ih (acc ++ [y]) hnd2
      refine ⟨h1, fun x => ?_⟩
      rw [h2]
      simp only [List.mem_append, List.mem_singleton, List.mem_cons]
      tauto

theorem dedupFirst_nodup (l : List Int) : (dedupFirst l).Nodup := by
  rw [dedupFirst]
  exact (dedupFirst_go l [] (by simp)).1

theorem mem_dedupFirst (l : List Int) (x : Int) : x ∈ dedupFirst l ↔ x ∈ l := by
  rw [dedupFirst]
  have := (dedupFirst_go l [] (by simp)).2 x
  simpa using this

theorem mem_insertDesc (n : Int) (l : List Int) (m : Int) :
    m ∈ insertDesc n l ↔ m = n ∨ m ∈ l := by
  induction l with
  | nil => simp [insertDesc]
  | cons x xs ih =>
    rw [insertDesc]
    by_cases h : x ≤ n
    · rw [if_pos h]
      simp [List.mem_cons]
    · rw [if_neg h]
      simp only [List.mem_cons, ih]
      tauto

theorem pairwise_insertDesc (n : Int) (l : List Int)
    (h : l.Pairwise (fun a b => b < a)) (hn : n ∉ l) :
    (insertDesc n l).Pairwise (fun a b => b < a) := by
  induction l with
  | nil => simp [insertDesc]
  | cons x xs ih =>
    rw [insertDesc]
    rw [List.pairwise_cons] at h
    obtain ⟨hx, hxs⟩ := h
    by_cases hc : x ≤ n
    · rw [if_pos hc]
      have hne : ¬ (n = x) := fun e => hn (by rw [e]; exact List.mem_cons_self x xs)
      have hxn : x < n := by omega
      refine List.Pairwise.cons ?_ (List.Pairwise.cons hx hxs)
      intro z hz
      rcases List.mem_cons.mp hz with rfl | hz2
      · exact hxn
      · exact lt_trans (hx z hz2) hxn
    · rw [if_neg hc]
      have hnx : n < x := by omega
      refine List.Pairwise.cons ?_
        (ih hxs (fun hm => hn (List.mem_cons_of_mem x hm)))
      intro z hz
      rcases (mem_insertDesc n xs z).mp hz with rfl | hz2
      · exact hnx
      · exact hx z hz2

theorem mem_sortDesc (l : List Int) (m : Int) : m ∈ sortDesc l ↔ m ∈ l := by
  induction l with
  | nil => simp [sortDesc]
  | cons x xs ih =>
    rw [sortDesc, List.foldr_cons]
    rw [show xs.foldr insertDesc [] = sortDesc xs from rfl] at *
    rw [mem_insertDesc, ih, List.mem_cons]

theorem pairwise_sortDesc (l : List Int) (hnd : l.Nodup) :
    (sortDesc l).Pairwise (fun a b => b < a) := by
  induction l with
  | nil => simp [sortDesc]
  | cons x xs ih =>
    rw [sortDesc, List.foldr_cons]
    rw [show xs.foldr insertDesc [] = sortDesc xs from rfl]
    rw [List.nodup_cons] at hnd
    refine pairwise_insertDesc x _ (ih hnd.2) ?_
    intro hm
    exact hnd.1 ((mem_sortDesc xs x).mp hm)

theorem strictDescB_eq_chain (l : List Int) :
    strictDescB l = true ↔ List.Chain' (fun a b => b < a) l := by
  induction l with
  | nil => simp [strictDescB]
  | cons x xs ih =>
    cases xs with
    | nil => simp [strictDescB]
    | cons y ys =>
      rw [strictDescB, List.chain'_cons, Bool.and_eq_true, decide_eq_true_iff, ih]

theorem strictDescB_of_pairwise (l : List Int)
    (h : l.Pairwise (fun a b => b < a)) : strictDescB l = true := by
  haveI : IsTrans Int (fun a b => b < a) := ⟨fun a b c h1 h2 => lt_trans h2 h1⟩
  rw [strictDescB_eq_chain]
  exact List.chain'_iff_pairwise.mpr h

theorem sortDesc_dedup_strictDesc (rows : List Int) :
    strictDescB (sortDesc (dedupFirst rows)) = true :=
  strictDescB_of_pairwise _ (pairwise_sortDesc _ (dedupFirst_nodup rows))

theorem sortDesc_dedup_nodup (rows : List Int) :
    (sortDesc (dedupFirst rows)).Nodup :=
  (pairwise_sortDesc _ (dedupFirst_nodup rows)).imp (fun h => ne_of_gt h)

theorem mem_sortDesc_dedup (rows : List Int) (m : Int) :
    m ∈ sortDesc (dedupFirst rows) ↔ m ∈ rows := by
  rw [mem_sortDesc, mem_dedupFirst]

/-! ### Grouping lemmas for `batchDeleteRows` -/

theorem lookupBy_eq_none_iff {β : Type} (l : List (String × β)) (k : String) :
    lookupBy l k = none ↔ k ∉ l.map Prod.fst := by
  induction l with
  | nil => simp [lookupBy]
  | cons p t ih =>
    by_cases h : p.1 = k
    · rw [lookupBy, if_pos h]
      simp only [List.map_cons, List.mem_cons]
      constructor
      · intro hc
        exact absurd hc (by simp)
      · intro hc
        exact absurd (Or.inl h.symm) hc
    · rw [lookupBy, if_neg h, ih]
      simp only [List.map_cons, List.mem_cons]
      constructor
      · intro hc hmem
        rcases hmem with he | hm
        · exact h he.symm
        · exact hc hm
      · intro hc hm
        exact hc (Or.inr hm)

theorem keys_updateBy {β : Type} (l : List (String × β)) (k : String)
    (f : β → β) : (updateBy l k f).map Prod.fst = l.map Prod.fst := by
  induction l with
  | nil => rfl
  | cons p t ih =>
    by_cases h : p.1 = k <;> simp [updateBy, h, ih]

theorem mem_of_lookupBy {β : Type} (l : List (String × β)) (k : String) (b : β)
    (h : lookupBy l k = some b) : (k, b) ∈ l := by
  induction l with
  | nil => simp [lookupBy] at h
  | cons p t ih =>
    by_cases hp : p.1 = k
    · rw [lookupBy, if_pos hp] at h
      obtain rfl := Option.some_injective _ h
      subst hp
      exact List.mem_cons_self p t
    · rw [lookupBy, if_neg hp] at h
      exact List.mem_cons_of_mem p (ih h)

theorem lookupBy_of_mem_nodup {β : Type} (l : List (String × β)) (k : String)
    (b : β) (hnd : (l.map Prod.fst).Nodup) (h : (k, b) ∈ l) :
    lookupBy l k = some b := by
  induction l with
  | nil => simp at h
  | cons p t ih =>
    rw [List.map_cons, List.nodup_cons] at hnd
    rcases List.mem_cons.mp h with rfl | hmem
    · rw [lookupBy, if_pos rfl]
    · have hne : p.1 ≠ k := by
        intro e
        exact hnd.1 (e ▸ (List.mem_map.mpr ⟨(k, b), hmem, rfl⟩))
      rw [lookupBy, if_neg hne]
      exact ih hnd.2 hmem

theorem hasKey_iff {β : Type} (l : List (String × β)) (k : String) :
    hasKey l k = true ↔ k ∈ l.map Prod.fst := by
  rw [hasKey, Option.isSome_iff_exists]
  constructor
  · rintro ⟨b, hb⟩
    exact List.mem_map.mpr ⟨(k, b), mem_of_lookupBy l k b hb, rfl⟩
  · intro hm
    cases hl : lookupBy l k with
    | some b => exact ⟨b, rfl⟩
    | none => exact absurd hm ((lookupBy_eq_none_iff l k).mp hl)

theorem addToGroups_keys_nodup (groups : List (String × List Int))
    (k : String) (n : Int) (hnd : (groups.map Prod.fst).Nodup) :
    ((addToGroups groups k n).map Prod.fst).Nodup := by
  rw [addToGroups]
  by_cases h : hasKey groups k = true
  · rw [if_pos h, keys_updateBy]
    exact hnd
  · rw [if_neg h, List.map_append]
    rw [List.nodup_append]
    refine ⟨hnd, by simp, ?_⟩
    intro a ha
    simp only [List.map_cons, List.map_nil, List.mem_singleton]
    intro he
    subst he
    exact h ((hasKey_iff groups a).mpr ha)

theorem addToGroups_rows_self (groups : List (String × List Int))
    (k : String) (n : Int) :
    (lookupBy (addToGroups groups k n) k).getD [] =
      (lookupBy groups k).getD [] ++ [n] := by
  rw [addToGroups]
  by_cases h : hasKey groups k = true
  · rw [if_pos h, lookupBy_updateBy_self]
    rw [hasKey, Option.isSome_iff_exists] at h
    obtain ⟨rows, hrows⟩ := h
    rw [hrows]
    rfl
  · rw [if_neg h, lookupBy_append]
    have hnone : lookupBy groups k = none := by
      rw [hasKey] at h
      cases hl : lookupBy groups k with
      | some b => rw [hl] at h; exact absurd rfl h
      | none => rfl
    rw [hnone]
    simp [lookupBy]

theorem addToGroups_rows_ne (groups : List (String × List Int))
    (k : String) (n : Int) (k' : String) (h : k' ≠ k) :
    lookupBy (addToGroups groups k n) k' = lookupBy groups k' := by
  rw [addToGroups]
  by_cases hk : hasKey groups k = true
  · rw [if_pos hk, lookupBy_updateBy_ne _ _ _ _ h]
  · rw [if_neg hk, lookupBy_append]
    rw [show lookupBy [(k, [n])] k' = none from by
      rw [lookupBy, if_neg (fun e => h e.symm)]; rfl]
    cases lookupBy groups k' <;> rfl

theorem groupBySheet_go (items : List DeleteItem) :
    ∀ groups : List (String × List Int), (groups.map Prod.fst).Nodup →
      (((items.foldl (fun groups it =>
          match validItem it with
          | none => groups
          | some (name, n) => addToGroups groups name n) groups).map Prod.fst).Nodup ∧
       ∀ (k : String) (n : Int),
         n ∈ (lookupBy (items.foldl (fun groups it =>
             match validItem it with
             | none => groups
             | some (name, n) => addToGroups groups name n) groups) k).getD [] ↔
           n ∈ (lookupBy groups k).getD [] ∨ (k, n) ∈ items.filterMap validItem) := by
  induction items with
  | nil =>
    intro groups hnd
    simpa using hnd
  | cons it rest ih =>
    intro groups hnd
    simp only [List.foldl_cons]
    cases hv : validItem it with
    | none =>
      simp only []
      obtain ⟨h1, h2⟩ := ih groups hnd
      refine ⟨h1, fun k n => ?_⟩
      rw [h2, List.filterMap_cons, hv]
    | some pair =>
      obtain ⟨name, rn⟩ := pair
      simp only []
      obtain ⟨h1, h2⟩ :=
        ih (addToGroups groups name rn) (addToGroups_keys_nodup groups name rn hnd)
      refine ⟨h1, fun k n => ?_⟩
      rw [h2, List.filterMap_cons, hv]
      simp only [List.mem_cons]
      by_cases hk : k = name
      · subst hk
        rw [addToGroups_rows_self]
        simp only [List.mem_append, List.mem_singleton, Prod.mk.injEq, true_and]
        tauto
      · rw [addToGroups_rows_ne groups name rn k hk]
        have : ¬ ((k, n) = (name, rn)) := by
          simp only [Prod.mk.injEq]
          exact fun h => absurd h.1 hk
        tauto

theorem groupBySheet_keys_nodup (items : List DeleteItem) :
    ((groupBySheet items).map Prod.fst).Nodup := by
  rw [groupBySheet]
  exact (groupBySheet_go items [] (by simp)).1

theorem mem_groupRows (items : List DeleteItem) (k : String) (n : Int) :
    n ∈ (lookupBy (groupBySheet items) k).getD [] ↔
      (k, n) ∈ items.filterMap validItem := by
  rw [groupBySheet]
  have := (groupBySheet_go items [] (by simp)).2 k n
  simpa [lookupBy] using this

theorem block_filter (k : String) (rows : List Int) (name : String) :
    (rows.map (fun n => (k, n))).filter (fun q => q.1 == name) =
      if k = name then rows.map (fun n => (k, n)) else [] := by
  induction rows with
  | nil => simp
  | cons r t ih =>
    simp only [List.map_cons, List.filter_cons]
    by_cases h : k = name
    · subst h
      simp only [beq_self_eq_true, if_true]
      rw [ih, if_pos rfl]
    · have hb : ((k, r).1 == name) = false := by simpa using h
      simp only [hb, Bool.false_eq_true, if_false]
      rw [ih]
      simp [h]

theorem mem_flatten_blocks (groups : List (String × List Int)) (q : String × Int) :
    q ∈ ((groups.map
        (fun p => (sortDesc (dedupFirst p.2)).map (fun n => (p.1, n)))).flatten) ↔
      ∃ p ∈ groups, q.1 = p.1 ∧ q.2 ∈ sortDesc (dedupFirst p.2) := by
  rw [List.mem_flatten]
  constructor
  · rintro ⟨l, hl, hq⟩
    rw [List.mem_map] at hl
    obtain ⟨p, hp, rfl⟩ := hl
    rw [List.mem_map] at hq
    obtain ⟨n, hn, rfl⟩ := hq
    exact ⟨p, hp, rfl, hn⟩
  · rintro ⟨p, hp, h1, h2⟩
    refine ⟨(sortDesc (dedupFirst p.2)).map (fun n => (p.1, n)),
      List.mem_map.mpr ⟨p, hp, rfl⟩, ?_⟩
    rw [List.mem_map]
    refine ⟨q.2, h2, ?_⟩
    rw [← h1]

theorem nodup_flatten_blocks (groups : List (String × List Int))
    (hnd : (groups.map Prod.fst).Nodup) :
    ((groups.map
      (fun p => (sortDesc (dedupFirst p.2)).map (fun n => (p.1, n)))).flatten).Nodup := by
  induction groups with
  | nil => simp
  | cons p rest ih =>
    simp only [List.map_cons, List.flatten_cons]
    rw [List.map_cons, List.nodup_cons] at hnd
    rw [List.nodup_append]
    refine ⟨?_, ih hnd.2, ?_⟩
    · exact List.Nodup.map (fun a b h => by simpa using h)
        (sortDesc_dedup_nodup p.2)
    · intro q hq hq2
      obtain ⟨n, _, rfl⟩ := List.mem_map.mp hq
      obtain ⟨p', hp', he, _⟩ := (mem_flatten_blocks rest ((p.1, n))).mp hq2
      apply hnd.1
      rw [show p.1 = p'.1 from he]
      exact List.mem_map.mpr ⟨p', hp', rfl⟩

theorem filter_flatten_blocks (groups : List (String × List Int))
    (hnd : (groups.map Prod.fst).Nodup) (name : String) :
    ((((groups.map
        (fun p => (sortDesc (dedupFirst p.2)).map (fun n => (p.1, n)))).flatten).filter
      (fun q => q.1 == name)).map Prod.snd) =
      sortDesc (dedupFirst ((lookupBy groups name).getD [])) := by
  induction groups with
  | nil =>
    simp only [List.map_nil, List.flatten_nil, List.filter_nil, lookupBy]
    rfl
  | cons p rest ih =>
    simp only [List.map_cons, List.flatten_cons, List.filter_append, List.map_append]
    rw [List.map_cons, List.nodup_cons] at hnd
    rw [block_filter p.1 _ name]
    by_cases h : p.1 = name
    · rw [if_pos h]
      have hrest : (((rest.map
          (fun p => (sortDesc (dedupFirst p.2)).map (fun n => (p.1, n)))).flatten).filter
          (fun q => q.1 == name)) = [] := by
        rw [List.filter_eq_nil_iff]
        intro q hq
        obtain ⟨p', hp', he, _⟩ := (mem_flatten_blocks rest q).mp hq
        simp only [beq_iff_eq]
        intro hqe
        apply hnd.1
        rw [h, ← hqe, he]
        exact List.mem_map.mpr ⟨p', hp', rfl⟩
      rw [hrest]
      simp only [List.map_nil, List.append_nil]
      rw [List.map_map,
        show (Prod.snd ∘ fun n : Int => (p.1, n)) = id from rfl, List.map_id]
      rw [lookupBy, if_pos h]
      rfl
    · rw [if_neg h]
      simp only [List.map_nil, List.nil_append]
      rw [ih hnd.2, lookupBy, if_neg h]

theorem innerFold_count (k : String) (rows : List Int) :
    ∀ acc : Nat × Spreadsheet,
      rows.foldl (fun acc2 n => (acc2.1 + 1, deleteRowFromSheet acc2.2 k n.toNat)) acc =
        (acc.1 + rows.length,
         rows.foldl (fun st n => deleteRowFromSheet st k n.toNat) acc.2) := by
  induction rows with
  | nil => intro acc; simp
  | cons r t ih =>
    intro acc
    simp only [List.foldl_cons]
    rw [ih]
    rw [Prod.mk.injEq]
    constructor
    · simp
      omega
    · rfl

theorem outerFold_count (groups : List (String × List Int)) :
    ∀ acc : Nat × Spreadsheet,
      groups.foldl (fun acc p =>
        (sortDesc (dedupFirst p.2)).foldl
          (fun acc2 n => (acc2.1 + 1, deleteRowFromSheet acc2.2 p.1 n.toNat)) acc) acc =
      (acc.1 + ((groups.map
          (fun p => (sortDesc (dedupFirst p.2)).map (fun n => (p.1, n)))).flatten).length,
       ((groups.map
          (fun p => (sortDesc (dedupFirst p.2)).map (fun n => (p.1, n)))).flatten).foldl
         (fun st q => deleteRowFromSheet st q.1 q.2.toNat) acc.2) := by
  induction groups with
  | nil => intro acc; simp
  | cons p rest ih =>
    intro acc
    simp only [List.foldl_cons, List.map_cons, List.flatten_cons,
      List.foldl_append, List.length_append]
    rw [innerFold_count, ih]
    rw [Prod.mk.injEq]
    constructor
    · simp [List.length_map]
      omega
    · rw [List.foldl_map]

theorem batchDeleteSequence_tie (ss : Spreadsheet) (items : List DeleteItem) :
    batchDeleteRows ss (some items) =
      ((batchDeleteSequence items).length,
       (batchDeleteSequence items).foldl
         (fun st q => deleteRowFromSheet st q.1 q.2.toNat) (ensureSheetSetup ss)) := by
  by_cases he : items.isEmpty = true
  · rw [List.isEmpty_iff] at he
    subst he
    rfl
  · rw [batchDeleteRows]
    rw [if_neg he, outerFold_count (groupBySheet items) (0, ensureSheetSetup ss),
      batchDeleteSequence]
    simp

theorem validPairs_ge_two (items : List DeleteItem) (k : String) (n : Int)
    (h : (k, n) ∈ items.filterMap validItem) : 2 ≤ n := by
  rw [List.mem_filterMap] at h
  obtain ⟨it, _, hv⟩ := h
  rw [validItem] at hv
  cases hit : it.rowNumber with
  | none => rw [hit] at hv; simp at hv
  | some m =>
    rw [hit] at hv
    simp only [] at hv
    split_ifs at hv with hc
    push_neg at hc
    obtain ⟨-, rfl⟩ := hv
    omega

theorem headCell_delete (ss : Spreadsheet) (name n : String) (r : Nat)
    (h2 : 2 ≤ r) :
    ((findGrid (deleteRowFromSheet ss name r) n).getD [])[0]? =
      ((findGrid ss n).getD [])[0]? := by
  by_cases hn : n = name
  · subst hn
    rw [deleteRowFromSheet, findGrid_modifyGrid_self]
    cases hg : findGrid ss n with
    | none => simp
    | some g =>
      simp only [Option.map_some', Option.getD_some]
      cases g with
      | nil => simp
      | cons x t =>
        rw [show r - 1 = (r - 2) + 1 from by omega, List.take_succ_cons]
        simp
  · rw [deleteRowFromSheet, findGrid_modifyGrid_ne _ _ _ _ hn]

theorem headCell_fold (seq : List (String × Int))
    (hvalid : ∀ q ∈ seq, 2 ≤ q.2) :
    ∀ (ss : Spreadsheet) (n : String),
      ((findGrid (seq.foldl (fun st q => deleteRowFromSheet st q.1 q.2.toNat) ss)
          n).getD [])[0]? = ((findGrid ss n).getD [])[0]? := by
  induction seq with
  | nil => intro ss n; rfl
  | cons q rest ih =>
    intro ss n
    simp only [List.foldl_cons]
    rw [ih (fun q2 hq => hvalid q2 (List.mem_cons_of_mem q hq))]
    refine headCell_delete ss q.1 n q.2.toNat ?_
    have := hvalid q (List.mem_cons_self q rest)
    omega

/-! ### Claim C2 -/

/-- Claim C2, counterexample to the claim as stated: `batchUpdateRoles`
issues its row-index-affecting operations in caller order, not descending
order — for two removal transitions addressed at rows 2 and 3 of the same
sheet the operation sequence is ascending, and the second operation lands on
the wrong row: starting from rows for id2, id3, id4, the surviving row is
the one for id3 (the row the second transition meant to delete) while the
id4 row is deleted instead. -/
theorem reconcile_descending_order_cex :
    ¬ opsDescendingBySheet (reconcileRowOps
        [⟨"Monadians", 2, "id2", "u2", "w2", ""⟩,
         ⟨"Monadians", 3, "id3", "u3", "w3", ""⟩]) ∧
    dataRowsOf (batchUpdateRoles ssThreeRows
        [⟨"Monadians", 2, "id2", "u2", "w2", ""⟩,
         ⟨"Monadians", 3, "id3", "u3", "w3", ""⟩]).2 "Monadians" =
      [["u3", "id3", "w3", "Monadian"]] := by
  constructor
  · intro h
    have h2 := h "Monadians"
    revert h2
    decide
  · decide

/-- Claim C2 (amended: the descending-by-index ordering guarantee holds for
`batchDeleteRows`, which sorts each sheet's distinct row numbers in
descending order before deleting, so no deletion invalidates a later one;
`batchUpdateRoles` performs its per-transition row operations strictly in
the caller-supplied order with no reordering, so its callers must supply
transitions whose indices remain valid).  The deletion sequence of
`batchDeleteRows` is strictly descending within every sheet, the function's
result is exactly the fold of that sequence, and the spec's example deletes
rows 5, 3, 2 in that order leaving the other rows intact. -/
theorem delete_many_descending_order :
    (∀ items : List DeleteItem,
      opsDescendingBySheet (batchDeleteSequence items)) ∧
    (∀ (ss : Spreadsheet) (items : List DeleteItem),
      batchDeleteRows ss (some items) =
        ((batchDeleteSequence items).length,
         (batchDeleteSequence items).foldl
           (fun st q => deleteRowFromSheet st q.1 q.2.toNat)
           (ensureSheetSetup ss))) ∧
    (batchDeleteSequence
        [⟨"Monadians", some 2⟩, ⟨"Monadians", some 5⟩, ⟨"Monadians", some 3⟩] =
      [("Monadians", 5), ("Monadians", 3), ("Monadians", 2)]) ∧
    (dataRowsOf (batchDeleteRows ssFiveRows (some
        [⟨"Monadians", some 2⟩, ⟨"Monadians", some 5⟩,
         ⟨"Monadians", some 3⟩])).2 "Monadians" =
      [["u4", "id4", "w4", "Monadian"], ["u6", "id6", "w6", "Monadian"]]) := by
  refine ⟨?_, fun ss items => batchDeleteSequence_tie ss items, by decide, by decide⟩
  intro items name
  rw [batchDeleteSequence,
    filter_flatten_blocks (groupBySheet items) (groupBySheet_keys_nodup items) name]
  exact sortDesc_dedup_strictDesc _

/-! ### Claim C10 -/

/-- Claim C10: `batchDeleteRows` never touches a header row — every deletion
it issues addresses a row number at least 2 and row 1 of every sheet is
preserved; items without a sheet name, with a non-integer row number or a
row number below 2 are skipped; duplicate (sheet, row) pairs are collapsed
so each distinct valid pair is deleted exactly once; the returned count is
the number of distinct valid pairs; and an empty or non-array input deletes
nothing. -/
theorem batch_delete_safety (ss : Spreadsheet) (items : List DeleteItem) :
    (∀ q ∈ batchDeleteSequence items, 2 ≤ q.2) ∧
    (∀ name, ((findGrid (batchDeleteRows ss (some items)).2 name).getD [])[0]? =
      ((findGrid (ensureSheetSetup ss) name).getD [])[0]?) ∧
    (batchDeleteSequence items).Nodup ∧
    (∀ q : String × Int,
      q ∈ batchDeleteSequence items ↔ q ∈ items.filterMap validItem) ∧
    (batchDeleteRows ss (some items)).1 =
      (items.filterMap validItem).toFinset.card ∧
    batchDeleteRows ss none = (0, ensureSheetSetup ss) ∧
    batchDeleteRows ss (some []) = (0, ensureSheetSetup ss) := by
  have hmem : ∀ q : String × Int,
      q ∈ batchDeleteSequence items ↔ q ∈ items.filterMap validItem := by
    intro q
    rw [batchDeleteSequence, mem_flatten_blocks]
    constructor
    · rintro ⟨p, hp, h1, h2⟩
      rw [mem_sortDesc_dedup] at h2
      have hl : lookupBy (groupBySheet items) p.1 = some p.2 :=
        lookupBy_of_mem_nodup _ _ _ (groupBySheet_keys_nodup items) hp
      have hq : q.2 ∈ (lookupBy (groupBySheet items) q.1).getD [] := by
        rw [h1, hl]
        exact h2
      rw [mem_groupRows] at hq
      simpa using hq
    · intro hq
      have hq2 : q.2 ∈ (lookupBy (groupBySheet items) q.1).getD [] := by
        rw [mem_groupRows]
        simpa using hq
      cases hl : lookupBy (groupBySheet items) q.1 with
      | none => rw [hl] at hq2; simp at hq2
      | some rows =>
        refine ⟨(q.1, rows), mem_of_lookupBy _ _ _ hl, rfl, ?_⟩
        rw [mem_sortDesc_dedup]
        rw [hl] at hq2
        simpa using hq2
  have hge : ∀ q ∈ batchDeleteSequence items, 2 ≤ q.2 := by
    intro q hq
    rw [hmem q] at hq
    exact validPairs_ge_two items q.1 q.2 (by simpa using hq)
  have hnd : (batchDeleteSequence items).Nodup := by
    rw [batchDeleteSequence]
    exact nodup_flatten_blocks _ (groupBySheet_keys_nodup items)
  refine ⟨hge, ?_, hnd, hmem, ?_, rfl, rfl⟩
  · intro name
    rw [batchDeleteSequence_tie]
    exact headCell_fold _ hge (ensureSheetSetup ss) name
  · rw [batchDeleteSequence_tie]
    show (batchDeleteSequence items).length = _
    rw [← List.toFinset_card_of_nodup hnd]
    congr 1
    ext q
    simp only [List.mem_toFinset]
    exact hmem q

theorem batch_delete_safety_witness :
    (2 : Int) ≤ 5 ∧
    (batchDeleteRows ssFiveRows (some
      [⟨"Monadians", some 2⟩, ⟨"Monadians", some 5⟩, ⟨"Monadians", some 2⟩,
       ⟨"", some 3⟩, ⟨"Monadians", none⟩])).1 = 2 :=
  ⟨(batch_delete_safety ssFiveRows
      [⟨"Monadians", some 2⟩, ⟨"Monadians", some 5⟩, ⟨"Monadians", some 3⟩]).1
      ("Monadians", 5) (by decide),
   by rw [(batch_delete_safety ssFiveRows
        [⟨"Monadians", some 2⟩, ⟨"Monadians", some 5⟩, ⟨"Monadians", some 2⟩,
         ⟨"", some 3⟩, ⟨"Monadians", none⟩]).2.2.2.2.1]
      decide⟩
